import Mathlib

/-!
Verification of the OI "governed execution corridor" repository.

This file gives a shallow embedding, in Lean 4, of the parts of the
repository that the claims C1..C10 are about:

  * the CDI decision engine (`kernel-go/internal/cdi/decision.go`),
  * the CIF boundary layer (`kernel-go/internal/cif`, ingress and egress),
  * the capability-token subsystem (`internal/capabilities`),
  * the adapter registry and mock adapter (`kernel-go/internal/adapters`),
  * the hash-chained audit ledger (`kernel-go/internal/audit`),
  * the partitioned memory manager (`internal/memory`),
  * the kernel pipeline and system state (`internal/kernel`),
  * the standalone hardened gateway (`flourish.java`), consent verification.

Modelling conventions:

  * Go `map[string]V` values are modelled as association lists
    `List (String × V)` with map lookup semantics (`find?` on the key);
    when such a map is rendered by Go's `%v` verb the keys are printed
    in sorted order, so event-data lists are written in that order.
  * Machine integers that hold sequence numbers, Unix timestamps and
    posture levels are modelled as `Nat` (they never go negative in the
    code); the gateway's Java `long` arithmetic is modelled as `Int`.
  * `time.Now()` is threaded explicitly: every operation that consults
    the clock receives a `now : Nat` (Unix seconds) argument.
  * SHA-256 (Go's `crypto/sha256` / Java's `MessageDigest`, standard
    library code external to this repository) is modelled as an abstract
    parameter `H : String → String` standing for hex-encoded SHA-256 of
    the argument's bytes; collision resistance is modelled, where a
    claim needs it, as the hypothesis `Function.Injective H`.
  * Ed25519 signature checking (Java standard library) is modelled as an
    abstract boolean parameter `sigver`.
  * Functions that can panic in Go (unchecked type assertion in
    `assessSensitivity`) return an explicit `panic` marker / `none`.
-/

namespace OI

/-! ## Decimal formatting (Go's `fmt` `%d` verb)

`fmtNat` prints a natural number in decimal, exactly as `fmt.Sprintf("%d", n)`
does for a non-negative integer.  It is written with explicit fuel so that it
reduces in the kernel, and proved equal to Mathlib's `Nat.digits`
representation, which gives injectivity. -/

def fmtNatAux : Nat → Nat → List Char → List Char
  | 0, _, acc => acc
  | fuel+1, n, acc =>
    let d := Nat.digitChar (n % 10)
    let n' := n / 10
    if n' = 0 then d :: acc else fmtNatAux fuel n' (d :: acc)

def fmtNat (n : Nat) : String := ⟨fmtNatAux (n+1) n []⟩

theorem fmtNatAux_eq_digits (fuel : Nat) : ∀ n acc, 0 < n → n ≤ fuel →
    fmtNatAux fuel n acc = ((Nat.digits 10 n).map Nat.digitChar).reverse ++ acc := by
  induction fuel with
  | zero => intro n acc hn hle; omega
  | succ f ih =>
    intro n acc hn hle
    have hdig : Nat.digits 10 n = n % 10 :: Nat.digits 10 (n / 10) :=
      Nat.digits_def' (by norm_num) hn
    by_cases h0 : n / 10 = 0
    · simp [fmtNatAux, h0, hdig]
    · have hlt : n / 10 < n := Nat.div_lt_self hn (by norm_num)
      have hle' : n / 10 ≤ f := by omega
      have := ih (n / 10) (Nat.digitChar (n % 10) :: acc) (Nat.pos_of_ne_zero h0) hle'
      simp only [fmtNatAux, h0, if_false]
      rw [this, hdig]
      simp

theorem fmtNat_data_pos {n : Nat} (hn : 0 < n) :
    (fmtNat n).data = ((Nat.digits 10 n).map Nat.digitChar).reverse := by
  have := fmtNatAux_eq_digits (n+1) n [] hn (by omega)
  simp only [fmtNat, this, List.append_nil]

theorem fmtNat_zero : fmtNat 0 = "0" := rfl

theorem digitChar_inj_lt10 : ∀ a < 10, ∀ b < 10, Nat.digitChar a = Nat.digitChar b → a = b := by
  decide

theorem map_digitChar_inj : ∀ (l₁ l₂ : List Nat), (∀ d ∈ l₁, d < 10) → (∀ d ∈ l₂, d < 10) →
    l₁.map Nat.digitChar = l₂.map Nat.digitChar → l₁ = l₂ := by
  intro l₁
  induction l₁ with
  | nil => intro l₂ _ _ h; cases l₂ <;> simp_all
  | cons a t ih =>
    intro l₂ h₁ h₂ h
    cases l₂ with
    | nil => simp_all
    | cons b t₂ =>
      simp only [List.map_cons, List.cons.injEq] at h
      have ha : a < 10 := h₁ a (by simp)
      have hb : b < 10 := h₂ b (by simp)
      have hab := digitChar_inj_lt10 a ha b hb h.1
      have ht := ih t₂ (fun d hd => h₁ d (by simp [hd])) (fun d hd => h₂ d (by simp [hd])) h.2
      simp [hab, ht]

theorem digits_ten_inj {m n : Nat} (h : Nat.digits 10 m = Nat.digits 10 n) : m = n := by
  have := congrArg (Nat.ofDigits 10) h
  rwa [Nat.ofDigits_digits, Nat.ofDigits_digits] at this

theorem fmtNat_injective : Function.Injective fmtNat := by
  intro m n h
  have hdata : (fmtNat m).data = (fmtNat n).data := congrArg String.data h
  by_cases hm : m = 0 <;> by_cases hn : n = 0
  · omega
  · exfalso
    rw [hm] at hdata
    have hd := fmtNat_data_pos (Nat.pos_of_ne_zero hn)
    rw [hd] at hdata
    have : (Nat.digits 10 n).map Nat.digitChar = ['0'] := by
      have := congrArg List.reverse hdata
      simpa using this.symm
    have hdig : Nat.digits 10 n = [0] := by
      apply map_digitChar_inj
      · intro d hd'; exact Nat.digits_lt_base (by norm_num) hd'
      · intro d hd'; simp at hd'; omega
      · simpa using this
    have h0 := Nat.ofDigits_digits 10 n
    rw [hdig] at h0
    simp [Nat.ofDigits] at h0
    exact hn h0.symm
  · exfalso
    rw [hn] at hdata
    have hd := fmtNat_data_pos (Nat.pos_of_ne_zero hm)
    rw [hd] at hdata
    have : (Nat.digits 10 m).map Nat.digitChar = ['0'] := by
      have := congrArg List.reverse hdata
      simpa using this
    have hdig : Nat.digits 10 m = [0] := by
      apply map_digitChar_inj
      · intro d hd'; exact Nat.digits_lt_base (by norm_num) hd'
      · intro d hd'; simp at hd'; omega
      · simpa using this
    have h0 := Nat.ofDigits_digits 10 m
    rw [hdig] at h0
    simp [Nat.ofDigits] at h0
    exact hm h0.symm
  · rw [fmtNat_data_pos (Nat.pos_of_ne_zero hm), fmtNat_data_pos (Nat.pos_of_ne_zero hn)] at hdata
    have hmap := List.reverse_injective hdata
    exact digits_ten_inj (map_digitChar_inj _ _
      (fun d hd => Nat.digits_lt_base (by norm_num) hd)
      (fun d hd => Nat.digits_lt_base (by norm_num) hd) hmap)

/-! ## String helpers shared by the embedding -/

/-- `strings.Contains(hay, needle)` over the characters of the strings. -/
def strContainsAux (needle : List Char) : List Char → Bool
  | [] => needle.isEmpty
  | c :: rest => needle.isPrefixOf (c :: rest) || strContainsAux needle rest

def strContains (hay needle : String) : Bool := strContainsAux needle.data hay.data

/-- `strings.ToLower` (the taint and bypass patterns are ASCII). -/
def lowerStr (s : String) : String := ⟨s.data.map Char.toLower⟩

theorem string_ext {s t : String} (h : s.data = t.data) : s = t := by
  cases s; cases t; exact congrArg String.mk h

/-! ## Go dynamic values (`interface{}`) and Go's `%v` rendering

The repository stores free-form data as `map[string]interface{}`.  The values
that actually occur are strings, machine integers, booleans and `[]string`.
`fmtGoVal` reproduces the `fmt` package's `%v` verb on these values, and
`fmtEventData` reproduces `%v` on a `map[string]interface{}` — Go prints map
entries in sorted key order, so event-data lists in this file are written in
that order. -/

inductive GoVal where
  | str (v : String)
  | int (v : Nat)
  | bool (v : Bool)
  | strs (v : List String)
  deriving DecidableEq

/-- `%v` of a `[]string`: `[a b]`. -/
def fmtStrList (l : List String) : String := "[" ++ String.intercalate " " l ++ "]"

def fmtGoVal : GoVal → String
  | .str v => v
  | .int v => fmtNat v
  | .bool b => if b then "true" else "false"
  | .strs l => fmtStrList l

/-- `%v` of a `map[string]interface{}`: `map[k1:v1 k2:v2]`, keys sorted. -/
def fmtEventData (d : List (String × GoVal)) : String :=
  "map[" ++ String.intercalate " " (d.map (fun kv => kv.1 ++ ":" ++ fmtGoVal kv.2)) ++ "]"

/-- Association-list lookup with Go map semantics. -/
def alLookup {α : Type} (l : List (String × α)) (k : String) : Option α :=
  (l.find? (fun kv => kv.1 == k)).map (fun kv => kv.2)

/-- Association-list store `m[k] = v` with Go map semantics: replace the
binding if the key is present, otherwise add it. -/
def alInsert {α : Type} (l : List (String × α)) (k : String) (v : α) : List (String × α) :=
  if (l.find? (fun kv => kv.1 == k)).isSome then
    l.map (fun kv => if kv.1 == k then (k, v) else kv)
  else l ++ [(k, v)]

/-! ## Audit ledger (`kernel-go/internal/audit`, ledger implementation)

`H` stands for hex-encoded SHA-256 (`crypto/sha256` + `hex.EncodeToString`,
Go standard library).  `computeHash` hashes
`fmt.Sprintf("%d|%d|%s|%v|%s", Sequence, Timestamp, EventType, EventData, PrevHash)`. -/

structure Receipt where
  Sequence : Nat
  Timestamp : Nat
  EventType : String
  EventData : List (String × GoVal)
  PrevHash : String
  CurrentHash : String
  deriving DecidableEq

def serializeReceipt (r : Receipt) : String :=
  fmtNat r.Sequence ++ "|" ++ fmtNat r.Timestamp ++ "|" ++ r.EventType ++ "|"
    ++ fmtEventData r.EventData ++ "|" ++ r.PrevHash

def computeHash (H : String → String) (r : Receipt) : String := H (serializeReceipt r)

structure Ledger where
  receipts : List Receipt
  sequence : Nat
  deriving DecidableEq

/-- Build a receipt whose `CurrentHash` is computed from the other fields
(the Go code fills the struct with `CurrentHash` empty and then assigns
`computeHash`; `computeHash` does not read `CurrentHash`). -/
def mkReceipt (H : String → String) (seq ts : Nat) (eventType : String)
    (eventData : List (String × GoVal)) (prevHash : String) : Receipt :=
  let core : Receipt := { Sequence := seq, Timestamp := ts, EventType := eventType,
                          EventData := eventData, PrevHash := prevHash, CurrentHash := "" }
  { core with CurrentHash := computeHash H core }

def NewLedger (H : String → String) (now : Nat) : Ledger :=
  { receipts := [mkReceipt H 0 now "genesis"
      [("message", GoVal.str "audit ledger initialized")] "0000000000000000"],
    sequence := 0 }

def Ledger.append (H : String → String) (now : Nat) (eventType : String)
    (eventData : List (String × GoVal)) (l : Ledger) : Ledger :=
  let seq := l.sequence + 1
  let prevHash := match l.receipts.getLast? with
    | some r => r.CurrentHash
    | none => "0000000000000000"
  { receipts := l.receipts ++ [mkReceipt H seq now eventType eventData prevHash],
    sequence := seq }

def Ledger.AppendCDIDecision (H : String → String) (now : Nat)
    (decision inputHash outputHash : String) (l : Ledger) : Ledger :=
  l.append H now "cdi_decision"
    [("decision", .str decision), ("input_hash", .str inputHash), ("output_hash", .str outputHash)]

def Ledger.AppendTokenMint (H : String → String) (now : Nat)
    (tokenDigest : String) (scope : List String) (l : Ledger) : Ledger :=
  l.append H now "token_mint" [("scope", .strs scope), ("token_digest", .str tokenDigest)]

def Ledger.AppendAdapterAttempt (H : String → String) (now : Nat)
    (adapterName : String) (accepted : Bool) (tokenDigest : String) (l : Ledger) : Ledger :=
  l.append H now "adapter_attempt"
    [("accepted", .bool accepted), ("adapter", .str adapterName), ("token_digest", .str tokenDigest)]

def Ledger.AppendMemoryWrite (H : String → String) (now : Nat)
    (partition scope contentHash : String) (l : Ledger) : Ledger :=
  l.append H now "memory_write"
    [("content_hash", .str contentHash), ("partition", .str partition), ("scope", .str scope)]

def Ledger.AppendIntegrityStateChange (H : String → String) (now : Nat)
    (newState : String) (l : Ledger) : Ledger :=
  l.append H now "integrity_state_change" [("new_state", .str newState)]

def Ledger.AppendStopEvent (H : String → String) (now : Nat)
    (tokensRevoked : Nat) (l : Ledger) : Ledger :=
  l.append H now "stop_event" [("tokens_revoked", .int tokensRevoked)]

def Ledger.AppendPostureChange (H : String → String) (now : Nat)
    (fromLevel toLevel : Nat) (reason : String) (l : Ledger) : Ledger :=
  l.append H now "posture_change"
    [("from_level", .int fromLevel), ("reason", .str reason), ("to_level", .int toLevel)]

inductive VerErr where
  | emptyLedger
  | hashMismatch
  | chainBreak
  deriving DecidableEq

/-- The loop body of `Ledger.Verify` for indices `i > 0`: check the stored
hash of each receipt, then its link to the previous receipt. -/
def verifyFrom (H : String → String) : Receipt → List Receipt → Bool × Option VerErr
  | _, [] => (true, none)
  | prev, r :: rest =>
    if r.CurrentHash ≠ computeHash H r then (false, some .hashMismatch)
    else if r.PrevHash ≠ prev.CurrentHash then (false, some .chainBreak)
    else verifyFrom H r rest

def Ledger.Verify (H : String → String) (l : Ledger) : Bool × Option VerErr :=
  match l.receipts with
  | [] => (false, some .emptyLedger)
  | r :: rest =>
    if r.CurrentHash ≠ computeHash H r then (false, some .hashMismatch)
    else verifyFrom H r rest

/-! ## Capability tokens (`kernel-go/internal/capabilities`)

Times are Unix seconds (`time.Time` values only ever flow through `Unix()`
and `After`).  `Limits` is rendered by `%v` as `{MaxDepth MaxBudget [ws]}`
inside the digest serialization. -/

structure Limits where
  MaxDepth : Nat
  MaxBudget : Nat
  WorkspaceBounds : List String
  deriving DecidableEq

structure PostureBounds where
  MinPosture : Nat
  MaxPosture : Nat
  deriving DecidableEq

structure Token where
  Issuer : String
  Subject : String
  Audience : String
  Scope : List String
  Limits : OI.Limits
  TTL : Nat
  IssuedAt : Nat
  ExpiresAt : Nat
  PostureBounds : OI.PostureBounds
  NamespaceID : String
  PrincipalID : String
  Digest : String
  RevokedAt : Option Nat
  deriving DecidableEq

/-- `%v` of the `Limits` struct: `{10 1000 []}`. -/
def fmtLimits (l : Limits) : String :=
  "\x7b" ++ fmtNat l.MaxDepth ++ " " ++ fmtNat l.MaxBudget ++ " " ++ fmtStrList l.WorkspaceBounds ++ "\x7d"

/-- `computeDigest`: SHA-256 of
`fmt.Sprintf("%s|%s|%s|%v|%v|%v|%v|%s|%s", Issuer, Subject, Audience, Scope,
Limits, IssuedAt.Unix(), ExpiresAt.Unix(), NamespaceID, PrincipalID)`. -/
def Token.computeDigest (H : String → String) (t : Token) : String :=
  H (t.Issuer ++ "|" ++ t.Subject ++ "|" ++ t.Audience ++ "|" ++ fmtStrList t.Scope ++ "|"
      ++ fmtLimits t.Limits ++ "|" ++ fmtNat t.IssuedAt ++ "|" ++ fmtNat t.ExpiresAt ++ "|"
      ++ t.NamespaceID ++ "|" ++ t.PrincipalID)

/-- `capabilities.Mint` (the Go function also returns an error that is always
nil, so the embedding returns the token directly). `ttl` is in seconds. -/
def Token.Mint (H : String → String) (now : Nat) (issuer subject audience : String)
    (scope : List String) (limits : OI.Limits) (ttl : Nat) (postureBounds : OI.PostureBounds)
    (namespaceID principalID : String) : Token :=
  let t : Token :=
    { Issuer := issuer, Subject := subject, Audience := audience, Scope := scope,
      Limits := limits, TTL := ttl, IssuedAt := now, ExpiresAt := now + ttl,
      PostureBounds := postureBounds, NamespaceID := namespaceID, PrincipalID := principalID,
      Digest := "", RevokedAt := none }
  { t with Digest := t.computeDigest H }

inductive TokenErr where
  | revoked (revokedAt : Nat)
  | expired (expiresAt : Nat)
  | postureBelowMinimum (cur min : Nat)
  | postureAboveMaximum (cur max : Nat)
  deriving DecidableEq

/-- `Token.Verify(currentPosture)`: revocation first, then expiry, then the
posture bounds.  The Go errors (`fmt.Errorf`) are modelled by kind. -/
def Token.Verify (now : Nat) (t : Token) (currentPosture : Nat) : Bool × Option TokenErr :=
  match t.RevokedAt with
  | some ts => (false, some (.revoked ts))
  | none =>
    if now > t.ExpiresAt then (false, some (.expired t.ExpiresAt))
    else if currentPosture < t.PostureBounds.MinPosture then
      (false, some (.postureBelowMinimum currentPosture t.PostureBounds.MinPosture))
    else if currentPosture > t.PostureBounds.MaxPosture then
      (false, some (.postureAboveMaximum currentPosture t.PostureBounds.MaxPosture))
    else (true, none)

def Token.Revoke (now : Nat) (t : Token) : Token := { t with RevokedAt := some now }

/-- `Token.HasScope`: a plain linear scan comparing each scope entry with the
operation string. -/
def Token.HasScope (t : Token) (operation : String) : Bool :=
  t.Scope.any (fun s => s == operation)

/-! ## CIF ingress (`kernel-go/internal/cif`, ingress half) -/

structure LabeledRequest where
  OriginalInput : String
  SanitizedInput : String
  TaintLabels : List String
  SensitivityLevel : String
  InputHash : String
  Metadata : List (String × GoVal)
  deriving DecidableEq

/-- `sanitizeInput`: drop control characters except newline and tab. -/
def sanitizeInput (input : String) : String :=
  ⟨input.data.filter (fun r => !(decide (r.toNat < 32) && r != '\n' && r != '\t'))⟩

def smugglingPatterns : List String :=
  ["system:", "assistant:", "<|im_start|>", "<|im_end|>", "[INST]", "[/INST]",
   "### Instruction:", "### System:"]

def pressurePatterns : List String :=
  ["urgent", "emergency", "immediately", "override", "ignore previous", "disregard"]

/-- `detectTaint`: each pattern family contributes its label at most once
(the Go loops `break` after the first hit); no hit at all yields `clean`. -/
def detectTaint (input : String) : List String :=
  let lowerInput := lowerStr input
  let l₁ := if smugglingPatterns.any (fun p => strContains lowerInput (lowerStr p))
            then ["instruction_smuggling_attempt"] else []
  let l₂ := if pressurePatterns.any (fun p => strContains lowerInput p)
            then ["pressure_tactic"] else []
  let labels := l₁ ++ l₂
  if labels.isEmpty then ["clean"] else labels

/-- `assessSensitivity`: reads caller metadata; the `level.(string)` type
assertion is unchecked, so a non-string value panics — modelled as `none`. -/
def assessSensitivity (_input : String) (metadata : List (String × GoVal)) : Option String :=
  match alLookup metadata "sensitivity" with
  | some (GoVal.str s) => some s
  | some _ => none
  | none => some "low"

inductive IngressResult where
  | panicked
  | err (msg : String)
  | ok (lr : LabeledRequest)
  deriving DecidableEq

/-- `cif.Ingress`: empty-input and 100 KiB size checks (`len` counts bytes),
sanitize, taint-detect, assess sensitivity (may panic), hash the sanitized
text. -/
def Ingress (H : String → String) (rawInput : String)
    (metadata : List (String × GoVal)) : IngressResult :=
  if rawInput.utf8ByteSize = 0 then .err "empty input rejected"
  else if rawInput.utf8ByteSize > 100 * 1024 then .err "input exceeds size limit"
  else
    let sanitized := sanitizeInput rawInput
    let taintLabels := detectTaint rawInput
    match assessSensitivity rawInput metadata with
    | none => .panicked
    | some sensitivity =>
      .ok { OriginalInput := rawInput, SanitizedInput := sanitized, TaintLabels := taintLabels,
            SensitivityLevel := sensitivity, InputHash := H sanitized, Metadata := metadata }

/-- `LabeledRequest.IsTainted`: any label other than `clean`. -/
def LabeledRequest.IsTainted (lr : LabeledRequest) : Bool :=
  lr.TaintLabels.any (fun label => label != "clean")

/-! ## CIF egress (`kernel-go/internal/cif`, egress half) -/

structure OutputArtifact where
  Content : String
  ContentHash : String
  SensitivityLevel : String
  LeakBudgetUsed : Nat
  Redacted : Bool
  Metadata : List (String × GoVal)
  deriving DecidableEq

structure UserResponse where
  Content : String
  Redacted : Bool
  RedactionReason : String
  OutputHash : String
  deriving DecidableEq

def redactOverBudget (content : String) (budget : Nat) : String :=
  if content.utf8ByteSize ≤ budget then content
  else ⟨content.data.take budget⟩ ++ "\n[REDACTED: leak budget exceeded]"

def shouldRedactByPosture (sensitivity : String) (posture : Nat) : Bool :=
  if sensitivity == "high" then decide (posture ≥ 2)
  else if sensitivity == "medium" then decide (posture ≥ 3)
  else if sensitivity == "low" then false
  else true

def redactSensitive (_content : String) : String :=
  "[REDACTED: sensitive content filtered by posture constraint]"

def bypassPatterns : List String :=
  ["ignore previous instructions", "disregard the above", "new instructions:",
   "system prompt:", "<|im_start|>", "override security"]

def containsBypassInstructions (content : String) : Bool :=
  let lowerContent := lowerStr content
  bypassPatterns.any (fun p => strContains lowerContent p)

def stripBypassInstructions (_content : String) : String :=
  "[OUTPUT BLOCKED: bypass instruction pattern detected]"

/-- `cif.Egress` (the Go function also returns an error that is always nil). -/
def Egress (H : String → String) (artifact : OutputArtifact) (postureLevel leakBudget : Nat) :
    UserResponse :=
  let outputHash := H artifact.Content
  let st₀ := (artifact.Content, false, "")
  let st₁ := if artifact.LeakBudgetUsed > leakBudget
             then (redactOverBudget st₀.1 leakBudget, true, "leak_budget_exceeded") else st₀
  let st₂ := if shouldRedactByPosture artifact.SensitivityLevel postureLevel
             then (redactSensitive st₁.1, true, "posture_constraint") else st₁
  let st₃ := if containsBypassInstructions st₂.1
             then (stripBypassInstructions st₂.1, true, "bypass_instruction_detected") else st₂
  { Content := st₃.1, Redacted := st₃.2.1, RedactionReason := st₃.2.2, OutputHash := outputHash }

/-! ## CDI decision engine (`kernel-go/internal/cdi/decision.go`) -/

inductive Decision where
  | ALLOW
  | DENY
  | DEGRADE
  deriving DecidableEq

/-- `DecisionResult` (the `Metadata` field of the Go struct is never written
anywhere in the repository and is omitted). -/
structure DecisionResult where
  Decision : Decision
  Reason : String
  DegradedScope : List String
  RequiredPosture : Nat
  deriving DecidableEq

structure DecisionContext where
  Request : LabeledRequest
  PostureLevel : Nat
  GovernanceRules : Option (List (String × GoVal))
  IntegrityState : String
  ActiveConsents : List (String × Bool)
  deriving DecidableEq

/-- Shorthand for the zero-valued fields of a Go `DecisionResult` literal that
only sets `Decision` and `Reason`. -/
def denyResult (reason : String) : DecisionResult :=
  { Decision := .DENY, Reason := reason, DegradedScope := [], RequiredPosture := 0 }

def hasConsent (consents : List (String × Bool)) (required : String) : Bool :=
  match alLookup consents required with
  | some b => b
  | none => false

/-- `evaluateRequest`: consent gate for high sensitivity, then degraded
integrity, then clean-low ALLOW, then medium DEGRADE, else fail closed. -/
def evaluateRequest (ctx : DecisionContext) : DecisionResult :=
  let sensitivity := ctx.Request.SensitivityLevel
  if sensitivity == "high" && !hasConsent ctx.ActiveConsents "high_risk_operations" then
    denyResult "high_risk_requires_consent"
  else if ctx.IntegrityState == "INTEGRITY_DEGRADED" then
    { Decision := .DEGRADE, Reason := "integrity_degraded",
      DegradedScope := ["read_only", "query"], RequiredPosture := ctx.PostureLevel }
  else if sensitivity == "low" && !ctx.Request.IsTainted then
    { Decision := .ALLOW, Reason := "clean_low_sensitivity",
      DegradedScope := ["*"], RequiredPosture := ctx.PostureLevel }
  else if sensitivity == "medium" then
    { Decision := .DEGRADE, Reason := "medium_sensitivity",
      DegradedScope := ["query", "search", "read"], RequiredPosture := ctx.PostureLevel }
  else
    denyResult "unknown_case"

/-- `cdi.Decide`: `none` models the Go nil-pointer context (the only case
where the returned error is non-nil). -/
def Decide (ctx : Option DecisionContext) : DecisionResult × Option String :=
  match ctx with
  | none => (denyResult "nil context", some "nil decision context")
  | some c =>
    if c.IntegrityState == "INTEGRITY_VOID" then (denyResult "integrity_void", none)
    else if c.Request.IsTainted then (denyResult "tainted_input", none)
    else if c.PostureLevel == 0 then (denyResult "undefined_posture", none)
    else if c.GovernanceRules.isNone then (denyResult "missing_governance", none)
    else (evaluateRequest c, none)

/-- `containsBypassPatterns` in `decision.go` — the function body is
`return false` (its comment calls it a simplified check); it is distinct
from the egress layer's `containsBypassInstructions`. -/
def containsBypassPatterns (_content : String) : Bool := false

/-- `cdi.DecideOutput` (the returned Go error is always nil). -/
def DecideOutput (content sensitivity : String) (postureLevel : Nat) :
    DecisionResult × Option String :=
  if sensitivity == "high" && decide (postureLevel ≥ 2) then
    (denyResult "high_sensitivity_blocked_by_posture", none)
  else if containsBypassPatterns content then
    (denyResult "bypass_instruction_in_output", none)
  else
    ({ Decision := .ALLOW, Reason := "output_approved", DegradedScope := [],
       RequiredPosture := 0 }, none)

/-! ## Adapters (`kernel-go/internal/adapters`)

`MockAdapter` is the only `Adapter` implementation in the tree, so the
registry is modelled as a map from names to `MockAdapter` values; Go mutates
the adapter through a pointer, so every operation returns the updated value. -/

structure Invocation where
  TokenDigest : String
  Params : List (String × GoVal)
  Result : List (String × GoVal)
  deriving DecidableEq

structure MockAdapter where
  name : String
  invocations : List Invocation
  deriving DecidableEq

def NewMockAdapter (name : String) : MockAdapter := { name := name, invocations := [] }

inductive AdapterErr where
  | nilTokenInvoke
  | tokenlessInvocation
  | tokenVerificationFailed (inner : Option TokenErr)
  | missingScope (adapter : String)
  | notFound (name : String)
  | registryVerificationFailed (inner : AdapterErr)
  deriving DecidableEq

/-- `MockAdapter.Invoke`: rejects a nil token, otherwise records the
invocation and returns the result map (keys listed in sorted order). -/
def MockAdapter.Invoke (m : MockAdapter) (token : Option Token)
    (params : List (String × GoVal)) :
    (Option (List (String × GoVal)) × Option AdapterErr) × MockAdapter :=
  match token with
  | none => ((none, some .nilTokenInvoke), m)
  | some t =>
    let result : List (String × GoVal) :=
      [("message", .str ("mock adapter " ++ m.name ++ " invoked")), ("status", .str "success")]
    ((some result, none),
     { m with invocations := m.invocations ++
        [{ TokenDigest := t.Digest, Params := params, Result := result }] })

/-- `MockAdapter.VerifyToken`: nil token, then `token.Verify`, then the scope
check `HasScope(name) || HasScope("*")`. -/
def MockAdapter.VerifyToken (m : MockAdapter) (now : Nat) (token : Option Token)
    (currentPosture : Nat) : Option AdapterErr :=
  match token with
  | none => some .tokenlessInvocation
  | some t =>
    let v := t.Verify now currentPosture
    if !v.1 then some (.tokenVerificationFailed v.2)
    else if !(t.HasScope m.name) && !(t.HasScope "*") then some (.missingScope m.name)
    else none

structure Registry where
  adapters : List (String × MockAdapter)
  deriving DecidableEq

def NewRegistry : Registry := { adapters := [] }

def Registry.Register (r : Registry) (adapter : MockAdapter) : Option String × Registry :=
  if (alLookup r.adapters adapter.name).isSome then
    (some ("adapter " ++ adapter.name ++ " already registered"), r)
  else (none, { adapters := r.adapters ++ [(adapter.name, adapter)] })

def Registry.RegGet (r : Registry) (name : String) : Option MockAdapter :=
  alLookup r.adapters name

/-- `Registry.Invoke`, the central chokepoint: look the adapter up, verify the
token, and only then invoke. -/
def Registry.Invoke (r : Registry) (now : Nat) (adapterName : String) (token : Option Token)
    (currentPosture : Nat) (params : List (String × GoVal)) :
    (Option (List (String × GoVal)) × Option AdapterErr) × Registry :=
  match r.RegGet adapterName with
  | none => ((none, some (.notFound adapterName)), r)
  | some adapter =>
    match adapter.VerifyToken now token currentPosture with
    | some e => ((none, some (.registryVerificationFailed e)), r)
    | none =>
      let res := adapter.Invoke token params
      (res.1, { adapters := alInsert r.adapters adapterName res.2 })

/-! ## Memory partition manager (`internal/memory`) -/

structure Entry where
  ID : String
  Partition : String
  Content : String
  ContentHash : String
  Metadata : List (String × GoVal)
  Timestamp : Nat
  Verified : Bool
  deriving DecidableEq

structure PartitionPolicy where
  AllowWrite : Bool
  AllowRead : Bool
  RequireCapability : Bool
  AppendOnly : Bool
  deriving DecidableEq

structure Partition where
  Name : String
  Entries : List (String × Entry)
  Policy : PartitionPolicy
  deriving DecidableEq

structure Manager where
  partitions : List (String × Partition)
  deriving DecidableEq

def mkPartition (name : String) (w r cap app : Bool) : Partition :=
  { Name := name, Entries := [],
    Policy := { AllowWrite := w, AllowRead := r, RequireCapability := cap, AppendOnly := app } }

/-- `memory.NewManager`: the six canonical partitions with their policies. -/
def NewManager : Manager :=
  { partitions :=
      [("ephemeral", mkPartition "ephemeral" true true false false),
       ("durable", mkPartition "durable" true true true false),
       ("commitments", mkPartition "commitments" true true true false),
       ("provenance", mkPartition "provenance" true true false true),
       ("quarantine", mkPartition "quarantine" true false false true),
       ("evidence", mkPartition "evidence" true true true true)] }

/-- `currentTimestamp` — the source returns the constant 0 (its comment says a
production build would use `time.Now().Unix()`). -/
def currentTimestamp : Nat := 0

inductive MemErr where
  | unknownPartition (p : String)
  | readOnlyPartition (p : String)
  | appendOnlyViolation (p id : String)
  | writeOnlyPartition (p : String)
  | notFound (id p : String)
  | entryNotInQuarantine (id : String)
  | missingVerificationRecord
  deriving DecidableEq

def updatePartition (m : Manager) (name : String) (p' : Partition) : Manager :=
  { partitions := m.partitions.map (fun kv => if kv.1 == name then (name, p') else kv) }

/-- `Manager.Write`.  `now` is the ambient wall-clock time at the call (the
source never consults it: the stored timestamp comes from the constant
`currentTimestamp`).  On failure the manager is returned unchanged, which is
what the Go method's early returns do. -/
def Manager.Write (H : String → String) (_now : Nat) (m : Manager)
    (partition id content : String) (metadata : List (String × GoVal)) :
    Option MemErr × Manager :=
  match alLookup m.partitions partition with
  | none => (some (.unknownPartition partition), m)
  | some p =>
    if !p.Policy.AllowWrite then (some (.readOnlyPartition partition), m)
    else if p.Policy.AppendOnly && (alLookup p.Entries id).isSome then
      (some (.appendOnlyViolation partition id), m)
    else
      let entry : Entry :=
        { ID := id, Partition := partition, Content := content, ContentHash := H content,
          Metadata := metadata, Timestamp := currentTimestamp, Verified := false }
      (none, updatePartition m partition { p with Entries := alInsert p.Entries id entry })

/-- `Manager.Read` (non-mutating in the source — it takes a read lock). -/
def Manager.Read (m : Manager) (partition id : String) : Except MemErr Entry :=
  match alLookup m.partitions partition with
  | none => .error (.unknownPartition partition)
  | some p =>
    if !p.Policy.AllowRead then .error (.writeOnlyPartition partition)
    else match alLookup p.Entries id with
      | none => .error (.notFound id partition)
      | some e => .ok e

/-- `Manager.PromoteFromQuarantine`: requires the entry and a non-empty
verification record; marks the quarantine entry verified, attaches the record
to its metadata, and copies it into `durable`.  The outer `Option` is `none`
exactly where the Go code would dereference a nil partition pointer (the
`quarantine` or `durable` partition missing from the map) and panic. -/
def Manager.PromoteFromQuarantine (m : Manager) (id verificationRecord : String) :
    Option (Option MemErr × Manager) :=
  match alLookup m.partitions "quarantine" with
  | none => none
  | some q =>
    match alLookup q.Entries id with
    | none => some (some (.entryNotInQuarantine id), m)
    | some entry =>
      if verificationRecord == "" then some (some .missingVerificationRecord, m)
      else
        match alLookup m.partitions "durable" with
        | none => none
        | some d =>
          let md := alInsert entry.Metadata "verification_record" (GoVal.str verificationRecord)
          let entry' := { entry with Verified := true, Metadata := md }
          let q' := { q with Entries := alInsert q.Entries id entry' }
          let copyE : Entry :=
            { ID := entry.ID, Partition := "durable", Content := entry.Content,
              ContentHash := entry.ContentHash, Metadata := md,
              Timestamp := currentTimestamp, Verified := true }
          let d' := { d with Entries := alInsert d.Entries id copyE }
          some (none, updatePartition (updatePartition m "quarantine" q') "durable" d')

def Manager.ListPartitions (m : Manager) : List String := m.partitions.map (fun kv => kv.1)

/-- Convenience accessor: the entry stored under `id` in partition `p`. -/
def mgrEntry (m : Manager) (p id : String) : Option Entry :=
  match alLookup m.partitions p with
  | none => none
  | some part => alLookup part.Entries id

/-! ## Kernel: system state and the corridor pipeline (`internal/kernel`)

`SystemState` keeps the fields the pipeline reads and writes; the purely
decorative capsule fields (world pack, semantic indexes, profile store,
declassification ledger, commitment digests) carry no behaviour in the
source and are omitted.  The aggregate is mutated only through the
operations below (the Go code guards it with one RW lock), so every
operation returns the updated state. -/

structure SystemState where
  PrincipalID : String
  NamespaceID : String
  ActiveConsents : List (String × Bool)
  GovernanceRules : Option (List (String × GoVal))
  AuditLedger : Ledger
  IntegrityState : String
  PostureLevel : Nat
  ActiveCapabilityTokens : List (String × Token)
  AdapterRegistry : Registry
  MemoryManager : Manager
  deriving DecidableEq

/-- `kernel.NewSystemState`: `GovernanceCapsule.Rules` is a non-nil empty map,
integrity starts `INTEGRITY_OK`, posture starts at `posture.P1 = 1`. -/
def NewSystemState (H : String → String) (now : Nat)
    (principalID namespaceID : String) : SystemState :=
  { PrincipalID := principalID, NamespaceID := namespaceID,
    ActiveConsents := [], GovernanceRules := some [],
    AuditLedger := NewLedger H now, IntegrityState := "INTEGRITY_OK",
    PostureLevel := 1, ActiveCapabilityTokens := [],
    AdapterRegistry := NewRegistry, MemoryManager := NewManager }

def SystemState.SetIntegrityState (H : String → String) (now : Nat)
    (s : SystemState) (state : String) : SystemState :=
  { s with IntegrityState := state,
           AuditLedger := s.AuditLedger.AppendIntegrityStateChange H now state }

/-- `SystemState.RevokeAllTokens` (STOP dominance): revoke every active token,
then append a `stop_event` receipt carrying the size of the token map. -/
def SystemState.RevokeAllTokens (H : String → String) (now : Nat)
    (s : SystemState) : SystemState :=
  { s with
    ActiveCapabilityTokens := s.ActiveCapabilityTokens.map (fun kv => (kv.1, kv.2.Revoke now)),
    AuditLedger := s.AuditLedger.AppendStopEvent H now s.ActiveCapabilityTokens.length }

/-- `SystemState.AddToken`: register under the token's digest and append a
`token_mint` receipt. -/
def SystemState.AddToken (H : String → String) (now : Nat)
    (s : SystemState) (token : Token) : SystemState :=
  { s with
    ActiveCapabilityTokens := alInsert s.ActiveCapabilityTokens token.Digest token,
    AuditLedger := s.AuditLedger.AppendTokenMint H now token.Digest token.Scope }

structure Request where
  RawInput : String
  Metadata : List (String × GoVal)
  deriving DecidableEq

structure Response where
  Content : String
  Success : Bool
  Error : String
  AuditTrail : List String
  deriving DecidableEq

def decisionToString : Decision → String
  | .ALLOW => "ALLOW"
  | .DENY => "DENY"
  | .DEGRADE => "DEGRADE"

/-- `mintToken` in the kernel: default scope `["*"]`, limits `{10, 1000, []}`,
TTL 5 minutes (300 s), posture bounds `[decision.RequiredPosture, 4]`.
(The Go helper also receives the labeled request but never reads it.) -/
def mintToken (H : String → String) (now : Nat) (decision : DecisionResult)
    (state : SystemState) : Token :=
  let scope := if decision.DegradedScope.isEmpty then ["*"] else decision.DegradedScope
  Token.Mint H now "kernel" state.PrincipalID "adapters" scope
    { MaxDepth := 10, MaxBudget := 1000, WorkspaceBounds := [] } 300
    { MinPosture := decision.RequiredPosture, MaxPosture := 4 }
    state.NamespaceID state.PrincipalID

/-- `kernelExecute`: the STOP re-check, then the registry chokepoint, then the
audit receipt for the attempt; `none` in the first component is the error
case (the Go error text is not modelled, only its occurrence). -/
def kernelExecute (H : String → String) (now : Nat) (token : Token)
    (request : LabeledRequest) (state : SystemState) : Option String × SystemState :=
  if token.RevokedAt.isSome then (none, state)
  else
    let adapterName := "mock_adapter"
    let params : List (String × GoVal) := [("input", .str request.SanitizedInput)]
    let res := state.AdapterRegistry.Invoke now adapterName (some token)
      state.PostureLevel params
    match res.1.2 with
    | some _ =>
      let ledger' := state.AuditLedger.AppendAdapterAttempt H now adapterName false token.Digest
      (none, { state with AdapterRegistry := res.2, AuditLedger := ledger' })
    | none =>
      let content := match res.1.1 with
        | some resultMap =>
          match alLookup resultMap "message" with
          | some (GoVal.str message) => message
          | _ => "result: " ++ fmtEventData resultMap
        | none => "result: map[]"
      let ledger' := state.AuditLedger.AppendAdapterAttempt H now adapterName true token.Digest
      (some content, { state with AdapterRegistry := res.2, AuditLedger := ledger' })

/-- The decision context `Execute` builds for the CDI call. -/
def execCtx (lr : LabeledRequest) (state : SystemState) : DecisionContext :=
  { Request := lr, PostureLevel := state.PostureLevel,
    GovernanceRules := state.GovernanceRules, IntegrityState := state.IntegrityState,
    ActiveConsents := state.ActiveConsents }

/-- `kernel.Execute`, the fixed-order corridor.  The result is `none` exactly
when a stage panics (the only panicking stage is `Ingress` via
`assessSensitivity`); otherwise it is the response together with the updated
system state. -/
def Execute (H : String → String) (now : Nat) (req : Request) (state : SystemState) :
    Option (Response × SystemState) :=
  let trail₀ := ["cif_ingress_start"]
  match Ingress H req.RawInput req.Metadata with
  | .panicked => none
  | .err _ =>
    some ({ Content := "", Success := false, Error := "cif_ingress_failed",
            AuditTrail := trail₀ }, state)
  | .ok labeledRequest =>
    let trail₁ := trail₀ ++ ["cif_ingress_complete", "cdi_decision_start"]
    let dres := Decide (some (execCtx labeledRequest state))
    match dres.2 with
    | some _ =>
      some ({ Content := "", Success := false, Error := "cdi_decision_failed",
              AuditTrail := trail₁ }, state)
    | none =>
      let decision := dres.1
      let ledger₁ := state.AuditLedger.AppendCDIDecision H now
        (decisionToString decision.Decision) labeledRequest.InputHash ""
      let state₁ := { state with AuditLedger := ledger₁ }
      let trail₂ := trail₁ ++ ["cdi_decision: " ++ decisionToString decision.Decision]
      if decision.Decision == Decision.DENY then
        some ({ Content := "", Success := false,
                Error := "request denied: " ++ decision.Reason,
                AuditTrail := trail₂ ++ ["deny_terminal"] }, state₁)
      else
        let trail₃ := trail₂ ++ ["token_mint_start"]
        let token := mintToken H now decision state₁
        let state₂ := state₁.AddToken H now token
        let trail₄ := trail₃ ++ ["token_mint_complete", "kernel_execute_start"]
        let kres := kernelExecute H now token labeledRequest state₂
        match kres.1 with
        | none =>
          some ({ Content := "", Success := false, Error := "kernel_execute_failed",
                  AuditTrail := trail₄ }, kres.2)
        | some outputContent =>
          let state₃ := kres.2
          let trail₅ := trail₄ ++ ["kernel_execute_complete", "cdi_output_decision_start"]
          let ores := DecideOutput outputContent labeledRequest.SensitivityLevel state₃.PostureLevel
          if ores.2.isSome || ores.1.Decision == Decision.DENY then
            some ({ Content := "", Success := false, Error := "output blocked by CDI",
                    AuditTrail := trail₅ }, state₃)
          else
            let trail₆ := trail₅ ++ ["cdi_output_decision_complete", "cif_egress_start"]
            let outputArtifact : OutputArtifact :=
              { Content := outputContent, ContentHash := "",
                SensitivityLevel := labeledRequest.SensitivityLevel,
                LeakBudgetUsed := outputContent.utf8ByteSize, Redacted := false, Metadata := [] }
            let finalResponse := Egress H outputArtifact state₃.PostureLevel 10000
            let trail₇ := trail₆ ++ ["cif_egress_complete"]
            some ({ Content := finalResponse.Content, Success := true, Error := "",
                    AuditTrail := trail₇ }, state₃)

/-! ## Standalone hardened gateway (`flourish.java`): consent verification

The pieces C9 is about.  JSON values parsed by `MiniJson` are modelled by
`JVal` (numbers as `Int`, matching Java `long`/`int` arithmetic).  A token
string `b64url(payload) "." b64url(sig)` is modelled as the pair of its
decoded payload and an opaque signature blob; `java.security.Signature`
(Ed25519, JDK standard library) is modelled by the abstract checker
`sigver`.  Times are Unix seconds as `Int`.  The configuration constants
used here are fixed in `Config`: `requireConsent = true`,
`consentAudience = "oi-runtime"`, `nonceTtlSeconds = 300`. -/

inductive JVal where
  | str (s : String)
  | num (n : Int)
  | jbool (b : Bool)
  | arr (a : List JVal)
  | obj (fields : List (String × JVal))
  | jnull

structure SignedToken where
  payload : JVal
  sig : Nat

inductive GwErr where
  | sigInvalid
  | payloadNotObject
  | missingExp
  | tokenExpired
  | missingConsentToken
  | consentBadVersion
  | consentBadAud
  | consentReplayOrMissingNonce
  | consentActHashMismatch
  deriving DecidableEq

def jLookup (fields : List (String × JVal)) (k : String) : Option JVal :=
  (fields.find? (fun kv => kv.1 == k)).map (fun kv => kv.2)

/-- `asString(o)`: `null` unless the value is a string. -/
def jAsString : Option JVal → Option String
  | some (.str s) => some s
  | _ => none

/-- `asInt(o, d)`: the default unless the value is a number. -/
def jAsInt (o : Option JVal) (d : Int) : Int :=
  match o with
  | some (.num n) => n
  | _ => d

/-- `verifySignedToken`: signature, payload-is-object, `exp` present, `exp`
not in the past (`Instant.now().getEpochSecond() > exp` rejects). -/
def verifySignedToken (sigver : JVal → Nat → Bool) (now : Int) (tok : SignedToken) :
    Except GwErr (List (String × JVal)) :=
  if !sigver tok.payload tok.sig then .error .sigInvalid
  else
    match tok.payload with
    | .obj m =>
      match jLookup m "exp" with
      | some (.num exp) => if now > exp then .error .tokenExpired else .ok m
      | _ => .error .missingExp
    | _ => .error .payloadNotObject

def gwNonceTtl : Int := 300

/-- `NonceCache.cleanup`: drop entries older than the TTL. -/
def nonceCleanup (seen : List (String × Int)) (now : Int) : List (String × Int) :=
  seen.filter (fun e => !(decide (now - e.2 > gwNonceTtl)))

/-- `NonceCache.checkAndStore`: reject a null/blank nonce without touching the
cache; otherwise cleanup, then `putIfAbsent` — true only on first use.  The
Java method runs under the map's atomic `putIfAbsent`, which the sequential
embedding reflects by threading the cache state. -/
def checkAndStore (seen : List (String × Int)) (now : Int) (nonce : Option String) :
    Bool × List (String × Int) :=
  match nonce with
  | none => (false, seen)
  | some n =>
    if n.data.all Char.isWhitespace then (false, seen)
    else
      let seen' := nonceCleanup seen now
      if (seen'.find? (fun e => e.1 == n)).isSome then (false, seen')
      else (true, seen' ++ [(n, now)])

/-- `App.verifyConsent` (with the fixed configuration `requireConsent = true`):
signed-token check, version, audience, nonce (checked and recorded), and the
action-hash binding, in the source's order.  Returns the error (if any) and
the updated nonce cache. -/
def verifyConsent (sigver : JVal → Nat → Bool) (seen : List (String × Int)) (now : Int)
    (consentToken : Option SignedToken) (expectedActHash : String) :
    Option GwErr × List (String × Int) :=
  match consentToken with
  | none => (some .missingConsentToken, seen)
  | some tok =>
    match verifySignedToken sigver now tok with
    | .error e => (some e, seen)
    | .ok p =>
      if jAsInt (jLookup p "v") (-1) != 1 then (some .consentBadVersion, seen)
      else if !(jAsString (jLookup p "aud") == some "oi-runtime") then
        (some .consentBadAud, seen)
      else
        let cs := checkAndStore seen now (jAsString (jLookup p "nonce"))
        if !cs.1 then (some .consentReplayOrMissingNonce, cs.2)
        else
          match jAsString (jLookup p "act_hash") with
          | some ah =>
            if ah == expectedActHash then (none, cs.2)
            else (some .consentActHashMismatch, cs.2)
          | none => (some .consentActHashMismatch, cs.2)

/-! # Claims

The remainder of the file states and settles the claims C1..C10 against the
definitions above. -/

/-! ## C2 — the ten-rule decision order of `cdi.Decide` -/

/-- Spec-side decision table, written from the spec's §4.3 wording: the ten
numbered rules, evaluated first-match-wins (rule 1, the missing context,
is the `none` case; rule 10 is the catch-all).  Each rule carries its guard
and its result. -/
def cdiSpecRules : List ((DecisionContext → Bool) × (DecisionContext → DecisionResult)) :=
  [(fun c => c.IntegrityState == "INTEGRITY_VOID",
    fun _ => denyResult "integrity_void"),
   (fun c => c.Request.IsTainted,
    fun _ => denyResult "tainted_input"),
   (fun c => c.PostureLevel == 0,
    fun _ => denyResult "undefined_posture"),
   (fun c => c.GovernanceRules.isNone,
    fun _ => denyResult "missing_governance"),
   (fun c => c.Request.SensitivityLevel == "high"
        && !hasConsent c.ActiveConsents "high_risk_operations",
    fun _ => denyResult "high_risk_requires_consent"),
   (fun c => c.IntegrityState == "INTEGRITY_DEGRADED",
    fun c => { Decision := .DEGRADE, Reason := "integrity_degraded",
               DegradedScope := ["read_only", "query"], RequiredPosture := c.PostureLevel }),
   (fun c => c.Request.SensitivityLevel == "low" && !c.Request.IsTainted,
    fun c => { Decision := .ALLOW, Reason := "clean_low_sensitivity",
               DegradedScope := ["*"], RequiredPosture := c.PostureLevel }),
   (fun c => c.Request.SensitivityLevel == "medium",
    fun c => { Decision := .DEGRADE, Reason := "medium_sensitivity",
               DegradedScope := ["query", "search", "read"], RequiredPosture := c.PostureLevel }),
   (fun _ => true,
    fun _ => denyResult "unknown_case")]

/-- First-match-wins evaluation of a rule table (the empty-table fallback is
unreachable because the table ends with a catch-all rule). -/
def firstMatch (rules : List ((DecisionContext → Bool) × (DecisionContext → DecisionResult)))
    (c : DecisionContext) : DecisionResult :=
  match rules with
  | [] => denyResult "unknown_case"
  | (cond, res) :: rest => if cond c then res c else firstMatch rest c

/-- The spec's decision procedure: missing context is rule 1, everything else
runs through the ten-rule table. -/
def DecideSpec (ctx : Option DecisionContext) : DecisionResult × Option String :=
  match ctx with
  | none => (denyResult "nil context", some "nil decision context")
  | some c => (firstMatch cdiSpecRules c, none)

/-- C2: `cdi.Decide` implements exactly the spec's ten rules,
first-match-wins — nil context, integrity void, tainted input, undefined
posture, missing governance, high-sensitivity-without-consent, degraded
integrity, clean-low ALLOW, medium DEGRADE, and the unknown-case
fail-closed default, with the stated reasons and scopes. -/
theorem C2_decide_matches_spec_rules : ∀ ctx, Decide ctx = DecideSpec ctx := by
  intro ctx
  cases ctx with
  | none => rfl
  | some c =>
    simp only [Decide, DecideSpec, evaluateRequest, firstMatch, cdiSpecRules]
    split_ifs <;> rfl

/-! ## C5 — `DecideOutput` and the dead bypass branch

`DecideOutput`'s second branch tests `containsBypassPatterns`, which in
`decision.go` is the constant-false stub, not the egress layer's
`containsBypassInstructions`; so no output is ever denied with reason
`bypass_instruction_in_output`. -/

/-- C5 counterexample: `"ignore previous instructions"` matches the egress
bypass scan, yet `DecideOutput` (here at low sensitivity, posture 1) returns
`ALLOW "output_approved"` — not the `DENY "bypass_instruction_in_output"`
the claim requires for such content. -/
theorem C5_counterexample :
    containsBypassInstructions "ignore previous instructions" = true ∧
    (DecideOutput "ignore previous instructions" "low" 1).1 =
      { Decision := .ALLOW, Reason := "output_approved", DegradedScope := [],
        RequiredPosture := 0 } := by
  decide

/-- C5 (amended): `DecideOutput` returns `DENY
"high_sensitivity_blocked_by_posture"` exactly when sensitivity is `"high"`
and the posture level is at least 2, and `ALLOW "output_approved"` in every
other case; in particular no input ever produces the reason
`bypass_instruction_in_output`, because the decision engine's bypass scan is
a stub that always reports false. -/
theorem C5_decideOutput_amended :
    (∀ content sensitivity postureLevel, sensitivity = "high" → 2 ≤ postureLevel →
       (DecideOutput content sensitivity postureLevel).1 =
         denyResult "high_sensitivity_blocked_by_posture") ∧
    (∀ content sensitivity postureLevel, ¬(sensitivity = "high" ∧ 2 ≤ postureLevel) →
       (DecideOutput content sensitivity postureLevel).1 =
         { Decision := .ALLOW, Reason := "output_approved", DegradedScope := [],
           RequiredPosture := 0 }) ∧
    (∀ content sensitivity postureLevel,
       (DecideOutput content sensitivity postureLevel).1.Reason ≠
         "bypass_instruction_in_output") := by
  refine ⟨?_, ?_, ?_⟩
  · intro content sensitivity postureLevel hs hp
    simp [DecideOutput, hs, hp]
  · intro content sensitivity postureLevel hns
    have hguard : (sensitivity == "high" && decide (postureLevel ≥ 2)) = false := by
      by_cases hs : sensitivity = "high"
      · have hp : ¬(2 ≤ postureLevel) := fun hp => hns ⟨hs, hp⟩
        simp [hs, hp]
      · simp [hs]
    simp [DecideOutput, hguard, containsBypassPatterns]
  · intro content sensitivity postureLevel
    simp only [DecideOutput, containsBypassPatterns, Bool.false_eq_true, if_false]
    split_ifs <;> decide

/-- Witness for the amended C5 at concrete inputs. -/
theorem C5_decideOutput_amended_witness :
    (DecideOutput "x" "high" 2).1 = denyResult "high_sensitivity_blocked_by_posture" ∧
    (DecideOutput "x" "low" 4).1 =
      { Decision := .ALLOW, Reason := "output_approved", DegradedScope := [],
        RequiredPosture := 0 } :=
  ⟨C5_decideOutput_amended.1 "x" "high" 2 rfl (by decide),
   C5_decideOutput_amended.2.1 "x" "low" 4 (by decide)⟩

/-! ## C6 — `Token.HasScope` has no wildcard case

The scope scan compares each entry literally with the operation; the wildcard
is honored one level up, in `MockAdapter.VerifyToken`, which asks
`HasScope(name) || HasScope("*")`. -/

def c6Token : Token :=
  Token.Mint id 0 "kernel" "p" "adapters" ["*"]
    { MaxDepth := 10, MaxBudget := 1000, WorkspaceBounds := [] } 300
    { MinPosture := 1, MaxPosture := 4 } "ns" "p"

/-- C6 counterexample: a token whose scope list is exactly `["*"]` — the
claim says `HasScope(token, "read")` must then be true, but the code returns
false (the wildcard is not inspected by `HasScope` itself). -/
theorem C6_counterexample :
    c6Token.Scope = ["*"] ∧ c6Token.HasScope "read" = false := by
  decide

/-- C6 (amended): `HasScope(token, operation)` returns true iff the operation
string is literally present in the token's scope list; the wildcard `"*"`
gives access only to the operation literally named `"*"` — callers that want
wildcard semantics (the adapters) test `HasScope(name) || HasScope("*")`
themselves. -/
theorem C6_hasScope_amended : ∀ (t : Token) (operation : String),
    t.HasScope operation = true ↔ operation ∈ t.Scope := by
  intro t operation
  simp only [Token.HasScope, List.any_eq_true, beq_iff_eq]
  constructor
  · rintro ⟨x, hx, rfl⟩; exact hx
  · intro h; exact ⟨operation, h, rfl⟩

/-- Witness for the amended C6 at a concrete token: scope `["*"]` grants the
operation literally named `"*"` and nothing else. -/
theorem C6_hasScope_amended_witness :
    c6Token.HasScope "*" = true ∧ c6Token.HasScope "read" = false := by
  constructor
  · exact (C6_hasScope_amended c6Token "*").mpr (by decide)
  · cases hb : c6Token.HasScope "read"
    · rfl
    · exact absurd ((C6_hasScope_amended c6Token "read").mp hb) (by decide)

/-! ## C10 — `Ingress` (and hence `Execute`) panics on non-string sensitivity -/

theorem ingress_panicked_iff (H : String → String) (input : String)
    (md : List (String × GoVal)) :
    Ingress H input md = .panicked ↔
      (input.utf8ByteSize ≠ 0 ∧ input.utf8ByteSize ≤ 100 * 1024 ∧
       assessSensitivity input md = none) := by
  unfold Ingress
  split_ifs with h0 hbig
  · simp [h0]
  · constructor
    · intro h; cases h
    · rintro ⟨-, hle, -⟩; omega
  · cases hs : assessSensitivity input md <;> simp [hs, h0]
    omega

theorem assessSensitivity_none_iff (input : String) (md : List (String × GoVal)) :
    assessSensitivity input md = none ↔
      ∃ v, alLookup md "sensitivity" = some v ∧ ∀ s, v ≠ GoVal.str s := by
  unfold assessSensitivity
  cases h : alLookup md "sensitivity" with
  | none => simp [h]
  | some v => cases v <;> simp [h]

theorem execute_none_iff (H : String → String) (now : Nat) (req : Request)
    (st : SystemState) :
    Execute H now req st = none ↔ Ingress H req.RawInput req.Metadata = .panicked := by
  unfold Execute
  cases hI : Ingress H req.RawInput req.Metadata
  · simp
  · simp
  · simp only [reduceCtorEq, iff_false]
    intro h
    repeat' split at h
    all_goals exact Option.noConfusion h

/-- C10: `Ingress` is not total — for any non-empty, size-compliant input,
caller metadata that maps `"sensitivity"` to a non-string value makes the
`level.(string)` assertion in `assessSensitivity` panic; `Execute` forwards
the request metadata into `Ingress` unchanged, so the pipeline panics on the
same requests, and it is total exactly when the `"sensitivity"` metadata, if
present, is a string. -/
theorem C10_ingress_sensitivity_panic (H : String → String) :
    (∀ input md v, input.utf8ByteSize ≠ 0 → input.utf8ByteSize ≤ 100 * 1024 →
       alLookup md "sensitivity" = some v → (∀ s, v ≠ GoVal.str s) →
       Ingress H input md = .panicked) ∧
    (∀ now req st v, req.RawInput.utf8ByteSize ≠ 0 → req.RawInput.utf8ByteSize ≤ 100 * 1024 →
       alLookup req.Metadata "sensitivity" = some v → (∀ s, v ≠ GoVal.str s) →
       Execute H now req st = none) ∧
    (∀ now req st, (∀ v, alLookup req.Metadata "sensitivity" = some v → ∃ s, v = GoVal.str s) →
       Execute H now req st ≠ none) := by
  have hIn : ∀ input md (v : GoVal), input.utf8ByteSize ≠ 0 → input.utf8ByteSize ≤ 100 * 1024 →
      alLookup md "sensitivity" = some v → (∀ s, v ≠ GoVal.str s) →
      Ingress H input md = .panicked := by
    intro input md v h0 hle hl hns
    rw [ingress_panicked_iff]
    exact ⟨h0, hle, (assessSensitivity_none_iff input md).mpr ⟨v, hl, hns⟩⟩
  refine ⟨hIn, ?_, ?_⟩
  · intro now req st v h0 hle hl hns
    rw [execute_none_iff]
    exact hIn req.RawInput req.Metadata v h0 hle hl hns
  · intro now req st hgood
    rw [Ne, execute_none_iff, ingress_panicked_iff]
    rintro ⟨-, -, hnone⟩
    rcases (assessSensitivity_none_iff _ _).mp hnone with ⟨v, hl, hns⟩
    rcases hgood v hl with ⟨s, rfl⟩
    exact hns s rfl

/-- Witness: a concrete request whose `"sensitivity"` metadata is the integer
5 makes the whole pipeline panic. -/
theorem C10_ingress_sensitivity_panic_witness :
    Execute id 0 { RawInput := "hello", Metadata := [("sensitivity", GoVal.int 5)] }
      (NewSystemState id 0 "p" "ns") = none :=
  (C10_ingress_sensitivity_panic id).2.1 0
    { RawInput := "hello", Metadata := [("sensitivity", GoVal.int 5)] }
    (NewSystemState id 0 "p" "ns") (GoVal.int 5) (by decide) (by decide) rfl
    (fun s h => GoVal.noConfusion h)

/-! ## C1 — a DENY decision is terminal: no token mint, no adapter call -/

theorem decide_some_no_error (c : DecisionContext) : (Decide (some c)).2 = none := by
  simp only [Decide]
  split_ifs <;> rfl

/-- C1: whenever ingress succeeds and the CDI action decision on the labeled
request is `DENY`, `Execute` returns an unsuccessful response at once, the
active-token map of the system state is unchanged (nothing was minted or
registered), and the adapter registry — including every registered adapter's
recorded invocation list — is unchanged (no adapter was invoked). -/
theorem C1_deny_mints_no_token_calls_no_adapter (H : String → String) (now : Nat)
    (req : Request) (st : SystemState) (lr : LabeledRequest)
    (hIn : Ingress H req.RawInput req.Metadata = .ok lr)
    (hDeny : (Decide (some (execCtx lr st))).1.Decision = .DENY) :
    ∃ resp st', Execute H now req st = some (resp, st') ∧
      resp.Success = false ∧
      st'.ActiveCapabilityTokens = st.ActiveCapabilityTokens ∧
      st'.AdapterRegistry = st.AdapterRegistry := by
  unfold Execute
  rw [hIn]
  dsimp only
  rw [decide_some_no_error (execCtx lr st)]
  dsimp only
  rw [hDeny]
  simp only [beq_self_eq_true, if_true]
  exact ⟨_, _, rfl, rfl, rfl, rfl⟩

def demoState : SystemState :=
  let s := NewSystemState id 0 "test_principal" "test_namespace"
  let r := s.AdapterRegistry.Register (NewMockAdapter "mock_adapter")
  { s with AdapterRegistry := r.2, GovernanceRules := some [("exists", GoVal.bool true)] }

def c1Labeled : LabeledRequest :=
  { OriginalInput := "urgent", SanitizedInput := "urgent",
    TaintLabels := ["pressure_tactic"], SensitivityLevel := "low",
    InputHash := "urgent", Metadata := [] }

/-- Witness for C1: the pressure-tainted input `"urgent"` is denied and the
state's token map and adapter registry are untouched. -/
theorem C1_deny_mints_no_token_calls_no_adapter_witness :
    ∃ resp st', Execute id 0 { RawInput := "urgent", Metadata := [] } demoState =
        some (resp, st') ∧
      resp.Success = false ∧
      st'.ActiveCapabilityTokens = demoState.ActiveCapabilityTokens ∧
      st'.AdapterRegistry = demoState.AdapterRegistry :=
  C1_deny_mints_no_token_calls_no_adapter id 0 { RawInput := "urgent", Metadata := [] }
    demoState c1Labeled (by decide) (by decide)

/-! ## C3 — STOP dominance: `RevokeAllTokens` -/

theorem alInsert_mem_of_ne {α : Type} (l : List (String × α)) (k : String) (v : α)
    (d : String) (t : α) (hmem : (d, t) ∈ l) (hne : d ≠ k) : (d, t) ∈ alInsert l k v := by
  unfold alInsert
  split_ifs
  · have := List.mem_map_of_mem (fun kv : String × α => if kv.1 == k then (k, v) else kv) hmem
    simpa [hne] using this
  · exact List.mem_append_left _ hmem

/-- C3: after `RevokeAllTokens(now)` every token in the active-token map has
`RevokedAt = now`; every such token fails `Verify` at every later instant and
every posture level with a `Revoked`-kind error; a `stop_event` receipt is
appended whose `tokens_revoked` count is the size of the active-token map;
and revocation is irreversible — `Revoke` always leaves `RevokedAt` set,
integrity transitions do not touch the token map, and registering a new
token (under its own fresh digest) leaves every other binding in place. -/
theorem C3_stop_revokes_all_tokens (H : String → String) (now : Nat) (st : SystemState) :
    (∀ d t, (d, t) ∈ (st.RevokeAllTokens H now).ActiveCapabilityTokens →
       t.RevokedAt = some now) ∧
    (∀ d t, (d, t) ∈ (st.RevokeAllTokens H now).ActiveCapabilityTokens →
       ∀ now' posture, Token.Verify now' t posture = (false, some (.revoked now))) ∧
    (∃ r, (st.RevokeAllTokens H now).AuditLedger.receipts =
            st.AuditLedger.receipts ++ [r] ∧
          r.EventType = "stop_event" ∧
          r.EventData = [("tokens_revoked", GoVal.int st.ActiveCapabilityTokens.length)]) ∧
    (∀ (t : Token) (n' : Nat), (Token.Revoke n' t).RevokedAt.isSome) ∧
    (∀ (s' : SystemState) (is : String),
       (s'.SetIntegrityState H now is).ActiveCapabilityTokens = s'.ActiveCapabilityTokens) ∧
    (∀ (s' : SystemState) (tok : Token) (d : String) (t : Token),
       (d, t) ∈ s'.ActiveCapabilityTokens → d ≠ tok.Digest →
       (d, t) ∈ (s'.AddToken H now tok).ActiveCapabilityTokens) := by
  have hrev : ∀ d t, (d, t) ∈ (st.RevokeAllTokens H now).ActiveCapabilityTokens →
      t.RevokedAt = some now := by
    intro d t hmem
    simp only [SystemState.RevokeAllTokens, List.mem_map] at hmem
    rcases hmem with ⟨kv, -, hkv⟩
    have : t = kv.2.Revoke now := (Prod.mk.injEq _ _ _ _ ▸ hkv).2.symm
    rw [this]
    rfl
  refine ⟨hrev, ?_, ?_, ?_, ?_, ?_⟩
  · intro d t hmem now' posture
    have := hrev d t hmem
    simp only [Token.Verify, this]
  · exact ⟨_, rfl, rfl, rfl⟩
  · intro t n'; rfl
  · intro s' is; rfl
  · intro s' tok d t hmem hne
    simp only [SystemState.AddToken]
    exact alInsert_mem_of_ne _ _ _ _ _ hmem hne

def c3Token : Token :=
  Token.Mint id 0 "kernel" "test_principal" "adapters" ["*"]
    { MaxDepth := 10, MaxBudget := 1000, WorkspaceBounds := [] } 300
    { MinPosture := 1, MaxPosture := 4 } "test_namespace" "test_principal"

def c3State : SystemState :=
  { demoState with ActiveCapabilityTokens := [(c3Token.Digest, c3Token)] }

/-- Witness for C3: one concrete minted token; after the sweep at time 100 it
is revoked and fails verification at time 500, posture 3, with the
`Revoked`-kind error. -/
theorem C3_stop_revokes_all_tokens_witness :
    (c3Token.Revoke 100).RevokedAt = some 100 ∧
    Token.Verify 500 (c3Token.Revoke 100) 3 = (false, some (.revoked 100)) :=
  ⟨(C3_stop_revokes_all_tokens id 100 c3State).1 c3Token.Digest (c3Token.Revoke 100)
      (by decide),
   (C3_stop_revokes_all_tokens id 100 c3State).2.1 c3Token.Digest (c3Token.Revoke 100)
      (by decide) 500 3⟩

/-! ## Association-list lemmas for the memory manager -/

theorem alLookup_cons {α : Type} (x : String × α) (t : List (String × α)) (k : String) :
    alLookup (x :: t) k = if x.1 == k then some x.2 else alLookup t k := by
  cases h : (x.1 == k) <;> simp [alLookup, List.find?_cons, h]

theorem alLookup_map {α β : Type} (f : α → β) (l : List (String × α)) (k : String) :
    alLookup (l.map (fun kv => (kv.1, f kv.2))) k = (alLookup l k).map f := by
  induction l with
  | nil => rfl
  | cons x t ih =>
    simp only [List.map_cons]
    rw [alLookup_cons, alLookup_cons]
    cases h : (x.1 == k) <;> simp [h, ih]

theorem alLookup_replace_self {α : Type} (l : List (String × α)) (k : String) (v : α)
    (h : (alLookup l k).isSome) :
    alLookup (l.map (fun kv => if kv.1 == k then (k, v) else kv)) k = some v := by
  induction l with
  | nil => simp [alLookup] at h
  | cons x t ih =>
    cases hx : (x.1 == k)
    · have h' : (alLookup t k).isSome := by
        rw [alLookup_cons] at h
        simpa [hx] using h
      have hhead : (if (x.1 == k) = true then (k, v) else x) = x := by simp [hx]
      rw [List.map_cons, hhead, alLookup_cons]
      simp only [hx, Bool.false_eq_true, if_false]
      exact ih h'
    · have hhead : (if (x.1 == k) = true then (k, v) else x) = (k, v) := by simp [hx]
      rw [List.map_cons, hhead, alLookup_cons]
      simp

theorem alLookup_replace_other {α : Type} (l : List (String × α)) (k : String) (v : α)
    (q : String) (hq : q ≠ k) :
    alLookup (l.map (fun kv => if kv.1 == k then (k, v) else kv)) q = alLookup l q := by
  induction l with
  | nil => rfl
  | cons x t ih =>
    cases hx : (x.1 == k)
    · have hhead : (if (x.1 == k) = true then (k, v) else x) = x := by simp [hx]
      rw [List.map_cons, hhead, alLookup_cons, alLookup_cons]
      cases hxq : (x.1 == q)
      · simp only [Bool.false_eq_true, if_false]
        exact ih
      · simp only [if_true]
    · have hx1 : x.1 = k := by simpa [beq_iff_eq] using hx
      have hkq : (k == q) = false := by
        simp only [beq_eq_false_iff_ne]
        exact fun e => hq e.symm
      have hxq : (x.1 == q) = false := by rw [hx1]; exact hkq
      have hhead : (if (x.1 == k) = true then (k, v) else x) = (k, v) := by simp [hx]
      rw [List.map_cons, hhead, alLookup_cons, alLookup_cons]
      simp only [hkq, hxq, Bool.false_eq_true, if_false]
      exact ih

theorem alLookup_find?_isSome {α : Type} (l : List (String × α)) (k : String) :
    (alLookup l k).isSome = (l.find? (fun kv => kv.1 == k)).isSome := by
  unfold alLookup
  exact Option.isSome_map'

theorem alLookup_append {α : Type} (l₁ l₂ : List (String × α)) (k : String)
    (h : l₁.find? (fun kv => kv.1 == k) = none) :
    alLookup (l₁ ++ l₂) k = alLookup l₂ k := by
  unfold alLookup
  rw [List.find?_append, h, Option.none_or]

theorem alLookup_alInsert_self {α : Type} (l : List (String × α)) (k : String) (v : α) :
    alLookup (alInsert l k v) k = some v := by
  rw [alInsert]
  by_cases hc : ((l.find? (fun kv => kv.1 == k)).isSome) = true
  · rw [if_pos hc]
    exact alLookup_replace_self l k v (by rw [alLookup_find?_isSome]; exact hc)
  · rw [if_neg hc]
    have hnone : l.find? (fun kv => kv.1 == k) = none := by
      cases hf : l.find? (fun kv => kv.1 == k)
      · rfl
      · simp [hf] at hc
    rw [alLookup_append l [(k, v)] k hnone, alLookup_cons]
    simp

theorem updatePartition_lookup_self (m : Manager) (name : String) (p' : Partition)
    (h : (alLookup m.partitions name).isSome) :
    alLookup (updatePartition m name p').partitions name = some p' :=
  alLookup_replace_self m.partitions name p' h

theorem updatePartition_lookup_other (m : Manager) (name : String) (p' : Partition)
    (q : String) (hq : q ≠ name) :
    alLookup (updatePartition m name p').partitions q = alLookup m.partitions q :=
  alLookup_replace_other m.partitions name p' q hq

/-- The partition names and policies of a manager agree with the six
canonical partitions that `NewManager` configures (the entries may differ:
this is the shape every reachable manager keeps, since no operation adds,
removes or re-policies a partition). -/
def canonicalPolicies (m : Manager) : Prop :=
  m.partitions.map (fun kv => (kv.1, kv.2.Policy)) =
    NewManager.partitions.map (fun kv => (kv.1, kv.2.Policy))

instance (m : Manager) : Decidable (canonicalPolicies m) :=
  inferInstanceAs (Decidable (m.partitions.map (fun kv => (kv.1, kv.2.Policy)) =
    NewManager.partitions.map (fun kv => (kv.1, kv.2.Policy))))

theorem canonical_lookup_policy (m : Manager) (hm : canonicalPolicies m) (p : String) :
    (alLookup m.partitions p).map Partition.Policy =
      (alLookup NewManager.partitions p).map Partition.Policy := by
  have h1 := alLookup_map Partition.Policy m.partitions p
  have h2 := alLookup_map Partition.Policy NewManager.partitions p
  rw [← h1, ← h2]
  unfold canonicalPolicies at hm
  rw [hm]

theorem canonical_lookup (m : Manager) (hm : canonicalPolicies m) (p : String)
    (pol : PartitionPolicy)
    (hp : (alLookup NewManager.partitions p).map Partition.Policy = some pol) :
    ∃ part, alLookup m.partitions p = some part ∧ part.Policy = pol := by
  have h := canonical_lookup_policy m hm p
  rw [hp] at h
  exact Option.map_eq_some'.mp h

/-! ## C7 — quarantine non-truth -/

/-- C7: on any manager with the canonical partition policies (as set up by
`NewManager` and preserved by every operation): (a) a `Read` of any id in
`quarantine` fails with the write-only-partition error; (b)
`PromoteFromQuarantine` with an empty verification record fails and returns
the manager unchanged; (c) with a non-empty record it marks the quarantine
entry `verified`, attaches the record to its metadata, and copies — the
quarantine entry remains — the entry into `durable` with `verified = true`;
and (d) no other operation moves quarantine content into durable: a
successful `Write` touches only its own partition and stores caller-supplied
content with `verified = false` (and `Read`/`ListPartitions` do not mutate
the manager at all — they are modelled as functions that return no state). -/
theorem C7_quarantine_non_truth (H : String → String) :
    (∀ m id, canonicalPolicies m →
       Manager.Read m "quarantine" id = .error (.writeOnlyPartition "quarantine")) ∧
    (∀ m id, canonicalPolicies m →
       ∃ e, Manager.PromoteFromQuarantine m id "" = some (some e, m)) ∧
    (∀ m id record entry, canonicalPolicies m →
       mgrEntry m "quarantine" id = some entry → record ≠ "" →
       ∃ m', Manager.PromoteFromQuarantine m id record = some (none, m') ∧
         mgrEntry m' "quarantine" id =
           some { entry with
                  Verified := true,
                  Metadata := alInsert entry.Metadata "verification_record" (GoVal.str record) } ∧
         mgrEntry m' "durable" id =
           some { ID := entry.ID, Partition := "durable", Content := entry.Content,
                  ContentHash := entry.ContentHash,
                  Metadata := alInsert entry.Metadata "verification_record" (GoVal.str record),
                  Timestamp := currentTimestamp, Verified := true }) ∧
    (∀ now m p id c md m', Manager.Write H now m p id c md = (none, m') →
       (∀ q, q ≠ p → alLookup m'.partitions q = alLookup m.partitions q) ∧
       mgrEntry m' p id = some { ID := id, Partition := p, Content := c,
                                 ContentHash := H c, Metadata := md,
                                 Timestamp := currentTimestamp, Verified := false }) := by
  refine ⟨?_, ?_, ?_, ?_⟩
  · intro m id hm
    rcases canonical_lookup m hm "quarantine"
        { AllowWrite := true, AllowRead := false, RequireCapability := false, AppendOnly := true }
        rfl with ⟨part, hpart, hpol⟩
    simp [Manager.Read, hpart, hpol]
  · intro m id hm
    rcases canonical_lookup m hm "quarantine"
        { AllowWrite := true, AllowRead := false, RequireCapability := false, AppendOnly := true }
        rfl with ⟨q, bq, -⟩
    cases he : alLookup q.Entries id
    · exact ⟨.entryNotInQuarantine id, by simp [Manager.PromoteFromQuarantine, bq, he]⟩
    · exact ⟨.missingVerificationRecord, by simp [Manager.PromoteFromQuarantine, bq, he]⟩
  · intro m id record entry hm hentry hrec
    rcases canonical_lookup m hm "quarantine"
        { AllowWrite := true, AllowRead := false, RequireCapability := false, AppendOnly := true }
        rfl with ⟨q, bq, -⟩
    rcases canonical_lookup m hm "durable"
        { AllowWrite := true, AllowRead := true, RequireCapability := true, AppendOnly := false }
        rfl with ⟨d, bd, -⟩
    have hqe : alLookup q.Entries id = some entry := by
      unfold mgrEntry at hentry
      rw [bq] at hentry
      exact hentry
    have hrec' : (record == "") = false := by simpa [beq_eq_false_iff_ne] using hrec
    have hqiS : (alLookup m.partitions "quarantine").isSome = true := by rw [bq]; rfl
    have hdup : ∀ q' : Partition,
        alLookup (updatePartition m "quarantine" q').partitions "durable" =
          alLookup m.partitions "durable" :=
      fun q' => updatePartition_lookup_other m "quarantine" q' "durable" (by decide)
    refine ⟨updatePartition (updatePartition m "quarantine" { q with Entries := alInsert q.Entries id { entry with Verified := true, Metadata := alInsert entry.Metadata "verification_record" (GoVal.str record) } }) "durable" { d with Entries := alInsert d.Entries id { ID := entry.ID, Partition := "durable", Content := entry.Content, ContentHash := entry.ContentHash, Metadata := alInsert entry.Metadata "verification_record" (GoVal.str record), Timestamp := currentTimestamp, Verified := true } }, ?_, ?_, ?_⟩
    · simp [Manager.PromoteFromQuarantine, bq, hqe, hrec', bd]
    · rw [mgrEntry]
      rw [updatePartition_lookup_other _ "durable" _ "quarantine" (by decide)]
      rw [updatePartition_lookup_self m "quarantine" _ hqiS]
      exact alLookup_alInsert_self _ _ _
    · rw [mgrEntry]
      rw [updatePartition_lookup_self _ "durable" _ (by rw [hdup, bd]; rfl)]
      exact alLookup_alInsert_self _ _ _
  · intro now m p id c md m' hw
    unfold Manager.Write at hw
    cases hl : alLookup m.partitions p with
    | none => rw [hl] at hw; simp at hw
    | some part =>
      rw [hl] at hw
      dsimp only at hw
      by_cases haw : part.Policy.AllowWrite = true
      · rw [haw] at hw
        simp only [Bool.not_true, Bool.false_eq_true, if_false] at hw
        by_cases hap : (part.Policy.AppendOnly && (alLookup part.Entries id).isSome) = true
        · rw [if_pos hap] at hw
          simp at hw
        · rw [if_neg hap] at hw
          have hm' := congrArg Prod.snd hw
          dsimp only at hm'
          subst hm'
          constructor
          · intro q hq
            exact updatePartition_lookup_other m p _ q hq
          · rw [mgrEntry]
            rw [updatePartition_lookup_self m p _ (by rw [hl]; rfl)]
            exact alLookup_alInsert_self _ _ _
      · have haw' : part.Policy.AllowWrite = false := by simpa using haw
        rw [haw'] at hw
        simp at hw

def c7Manager : Manager :=
  (Manager.Write id 0 NewManager "quarantine" "untrusted_1" "payload" []).2

def c7Entry : Entry :=
  { ID := "untrusted_1", Partition := "quarantine", Content := "payload",
    ContentHash := "payload", Metadata := [], Timestamp := 0, Verified := false }

/-- Witness for C7 on a concrete manager: an entry written to quarantine
cannot be read, cannot be promoted without a record, and is promoted (copied,
staying in quarantine) with one. -/
theorem C7_quarantine_non_truth_witness :
    Manager.Read c7Manager "quarantine" "untrusted_1" =
      .error (.writeOnlyPartition "quarantine") ∧
    (∃ e, Manager.PromoteFromQuarantine c7Manager "untrusted_1" "" =
       some (some e, c7Manager)) ∧
    (∃ m', Manager.PromoteFromQuarantine c7Manager "untrusted_1" "verification_signature_xyz" = some (none, m') ∧
       mgrEntry m' "quarantine" "untrusted_1" = some { c7Entry with Verified := true, Metadata := alInsert c7Entry.Metadata "verification_record" (GoVal.str "verification_signature_xyz") } ∧
       mgrEntry m' "durable" "untrusted_1" = some { ID := "untrusted_1", Partition := "durable", Content := "payload", ContentHash := "payload", Metadata := alInsert c7Entry.Metadata "verification_record" (GoVal.str "verification_signature_xyz"), Timestamp := currentTimestamp, Verified := true }) :=
  ⟨(C7_quarantine_non_truth id).1 c7Manager "untrusted_1" (by decide),
   (C7_quarantine_non_truth id).2.1 c7Manager "untrusted_1" (by decide),
   (C7_quarantine_non_truth id).2.2.1 c7Manager "untrusted_1" "verification_signature_xyz"
     c7Entry (by decide) (by decide) (by decide)⟩

/-! ## C8 — `Manager.Write` -/

/-- C8 counterexample: a write performed while the wall clock reads 5 stores
the entry with timestamp 0 — `currentTimestamp` is a constant-zero stub — so
the stored timestamp is not "the current time" as the claim states. -/
theorem C8_counterexample :
    (Manager.Write id 5 NewManager "ephemeral" "e1" "content" []).1 = none ∧
    mgrEntry (Manager.Write id 5 NewManager "ephemeral" "e1" "content" []).2 "ephemeral" "e1" =
      some { ID := "e1", Partition := "ephemeral", Content := "content",
             ContentHash := "content", Metadata := [], Timestamp := 0, Verified := false } ∧
    (0 : Nat) ≠ 5 := by
  decide

/-- C8 (amended): `NewManager` exposes exactly the six canonical partitions;
`Write` fails with the unknown-partition error when the named partition does
not exist, with the read-only error when the partition's policy disallows
writes, and with the append-only violation (leaving the manager, hence the
stored first entry, unchanged) when the partition is append-only and the id
is already present; on success it stores an entry whose content hash is the
hash of the content, whose `verified` flag is false, and whose timestamp is
the value of `currentTimestamp` — the constant 0 in this code (a stub; its
comment defers `time.Now()` to production), not the current time. -/
theorem C8_write_amended (H : String → String) :
    Manager.ListPartitions NewManager =
      ["ephemeral", "durable", "commitments", "provenance", "quarantine", "evidence"] ∧
    (∀ now m p id c md, alLookup m.partitions p = none →
       Manager.Write H now m p id c md = (some (.unknownPartition p), m)) ∧
    (∀ now m p id c md part, alLookup m.partitions p = some part →
       part.Policy.AllowWrite = false →
       Manager.Write H now m p id c md = (some (.readOnlyPartition p), m)) ∧
    (∀ now m p id c md part e0, alLookup m.partitions p = some part →
       part.Policy.AllowWrite = true → part.Policy.AppendOnly = true →
       alLookup part.Entries id = some e0 →
       Manager.Write H now m p id c md = (some (.appendOnlyViolation p id), m)) ∧
    (∀ now m p id c md part, alLookup m.partitions p = some part →
       part.Policy.AllowWrite = true →
       (part.Policy.AppendOnly = true → alLookup part.Entries id = none) →
       ∃ m', Manager.Write H now m p id c md = (none, m') ∧
         mgrEntry m' p id = some { ID := id, Partition := p, Content := c,
                                   ContentHash := H c, Metadata := md,
                                   Timestamp := currentTimestamp, Verified := false }) := by
  refine ⟨rfl, ?_, ?_, ?_, ?_⟩
  · intro now m p id c md hl
    unfold Manager.Write
    rw [hl]
  · intro now m p id c md part hl haw
    unfold Manager.Write
    rw [hl]
    dsimp only
    rw [haw]
    simp
  · intro now m p id c md part e0 hl haw hap he
    unfold Manager.Write
    rw [hl]
    dsimp only
    rw [haw, hap, he]
    simp
  · intro now m p id c md part hl haw hap
    have hguard : (part.Policy.AppendOnly && (alLookup part.Entries id).isSome) = false := by
      cases hao : part.Policy.AppendOnly
      · simp
      · rw [hap hao]
        simp
    refine ⟨updatePartition m p { part with Entries := alInsert part.Entries id { ID := id, Partition := p, Content := c, ContentHash := H c, Metadata := md, Timestamp := currentTimestamp, Verified := false } }, ?_, ?_⟩
    · unfold Manager.Write
      rw [hl]
      dsimp only
      rw [haw, hguard]
      simp
    · rw [mgrEntry]
      rw [updatePartition_lookup_self m p _ (by rw [hl]; rfl)]
      exact alLookup_alInsert_self _ _ _

def c8ReadOnly : Manager :=
  { partitions := [("frozen", { Name := "frozen", Entries := [], Policy := { AllowWrite := false, AllowRead := true, RequireCapability := false, AppendOnly := false } })] }

def c8Provenance : Manager :=
  (Manager.Write id 0 NewManager "provenance" "event_1" "first write" []).2

/-- Witness for the amended C8: the unknown-partition, read-only and
append-only failures and one successful write, all at concrete inputs. -/
theorem C8_write_amended_witness :
    Manager.Write id 0 NewManager "nonexistent" "x" "c" [] =
      (some (.unknownPartition "nonexistent"), NewManager) ∧
    Manager.Write id 0 c8ReadOnly "frozen" "x" "c" [] =
      (some (.readOnlyPartition "frozen"), c8ReadOnly) ∧
    Manager.Write id 0 c8Provenance "provenance" "event_1" "overwrite attempt" [] =
      (some (.appendOnlyViolation "provenance" "event_1"), c8Provenance) ∧
    (∃ m', Manager.Write id 7 NewManager "ephemeral" "test_id" "test content" [] = (none, m') ∧
       mgrEntry m' "ephemeral" "test_id" = some { ID := "test_id", Partition := "ephemeral", Content := "test content", ContentHash := "test content", Metadata := [], Timestamp := currentTimestamp, Verified := false }) :=
  ⟨(C8_write_amended id).2.1 0 NewManager "nonexistent" "x" "c" [] (by decide),
   (C8_write_amended id).2.2.1 0 c8ReadOnly "frozen" "x" "c" []
     { Name := "frozen", Entries := [], Policy := { AllowWrite := false, AllowRead := true, RequireCapability := false, AppendOnly := false } } (by decide) (by decide),
   (C8_write_amended id).2.2.2.1 0 c8Provenance "provenance" "event_1" "overwrite attempt" []
     { Name := "provenance", Entries := [("event_1", { ID := "event_1", Partition := "provenance", Content := "first write", ContentHash := "first write", Metadata := [], Timestamp := 0, Verified := false })], Policy := { AllowWrite := true, AllowRead := true, RequireCapability := false, AppendOnly := true } }
     { ID := "event_1", Partition := "provenance", Content := "first write", ContentHash := "first write", Metadata := [], Timestamp := 0, Verified := false }
     (by decide) (by decide) (by decide) (by decide),
   (C8_write_amended id).2.2.2.2 7 NewManager "ephemeral" "test_id" "test content" []
     (mkPartition "ephemeral" true true false false) (by decide) (by decide)
     (fun h => by decide)⟩

/-! ## C9 — gateway consent verification (`flourish.java`) -/

theorem verifySignedToken_ok (sigver : JVal → Nat → Bool) (now : Int) (tok : SignedToken)
    (p : List (String × JVal)) (h : verifySignedToken sigver now tok = .ok p) :
    sigver tok.payload tok.sig = true ∧ tok.payload = .obj p ∧
    ∃ exp, jLookup p "exp" = some (.num exp) ∧ now ≤ exp := by
  unfold verifySignedToken at h
  by_cases hs : sigver tok.payload tok.sig = true
  · simp only [hs, Bool.not_true, Bool.false_eq_true, if_false] at h
    cases hp : tok.payload with
    | str s => rw [hp] at h; exact absurd h (by simp)
    | num v => rw [hp] at h; exact absurd h (by simp)
    | jbool b => rw [hp] at h; exact absurd h (by simp)
    | arr a => rw [hp] at h; exact absurd h (by simp)
    | jnull => rw [hp] at h; exact absurd h (by simp)
    | obj fields =>
      rw [hp] at h
      dsimp only at h
      cases he : jLookup fields "exp" with
      | none => rw [he] at h; exact absurd h (by simp)
      | some v =>
        cases v with
        | str s => rw [he] at h; exact absurd h (by simp)
        | jbool b => rw [he] at h; exact absurd h (by simp)
        | arr a => rw [he] at h; exact absurd h (by simp)
        | obj o => rw [he] at h; exact absurd h (by simp)
        | jnull => rw [he] at h; exact absurd h (by simp)
        | num exp =>
          rw [he] at h
          dsimp only at h
          by_cases hexp : now > exp
          · rw [if_pos hexp] at h
            exact absurd h (by simp)
          · rw [if_neg hexp] at h
            have hp' : fields = p := by
              simpa only [Except.ok.injEq] using h
            subst hp'
            refine ⟨?_, rfl, exp, he, by omega⟩
            rw [← hp]
            exact hs
  · have hs' : sigver tok.payload tok.sig = false := by simpa using hs
    rw [hs'] at h
    exact absurd h (by simp)

theorem checkAndStore_true (seen : List (String × Int)) (now : Int) (nonce : Option String)
    (h : (checkAndStore seen now nonce).1 = true) :
    ∃ n, nonce = some n ∧ n.data.all Char.isWhitespace = false ∧
      ((nonceCleanup seen now).find? (fun e => e.1 == n)).isSome = false ∧
      (checkAndStore seen now nonce).2 = nonceCleanup seen now ++ [(n, now)] := by
  cases nonce with
  | none => unfold checkAndStore at h; simp at h
  | some n =>
    unfold checkAndStore at h ⊢
    dsimp only at h ⊢
    by_cases hb : n.data.all Char.isWhitespace = true
    · rw [if_pos hb] at h
      simp at h
    · rw [if_neg hb] at h ⊢
      have hb' : n.data.all Char.isWhitespace = false := by simpa using hb
      by_cases hf : ((nonceCleanup seen now).find? (fun e => e.1 == n)).isSome = true
      · rw [if_pos hf] at h
        simp at h
      · rw [if_neg hf] at h ⊢
        exact ⟨n, rfl, hb', Bool.eq_false_iff.mpr hf, rfl⟩

/-- All facts a successful `verifyConsent` yields, in one elimination: the
source's check order forces the signature, exp, audience, nonce and
action-hash conditions, and determines the updated nonce cache. -/
theorem verifyConsent_ok_elim (sigver : JVal → Nat → Bool) (seen : List (String × Int))
    (now : Int) (tok : SignedToken) (hash : String)
    (h : (verifyConsent sigver seen now (some tok) hash).1 = none) :
    ∃ p n, tok.payload = .obj p ∧ sigver tok.payload tok.sig = true ∧
      (∃ exp, jLookup p "exp" = some (.num exp) ∧ now ≤ exp) ∧
      jAsString (jLookup p "aud") = some "oi-runtime" ∧
      jAsString (jLookup p "nonce") = some n ∧
      n.data.all Char.isWhitespace = false ∧
      ((nonceCleanup seen now).find? (fun e => e.1 == n)).isSome = false ∧
      jAsString (jLookup p "act_hash") = some hash ∧
      (verifyConsent sigver seen now (some tok) hash).2 =
        nonceCleanup seen now ++ [(n, now)] := by
  unfold verifyConsent at h ⊢
  dsimp only at h ⊢
  cases hv : verifySignedToken sigver now tok with
  | error e => rw [hv] at h; exact absurd h (by simp)
  | ok p =>
    rw [hv] at h
    dsimp only at h
    dsimp only
    obtain ⟨hsig, hobj, exp, hexp, hle⟩ := verifySignedToken_ok sigver now tok p hv
    by_cases hver : (jAsInt (jLookup p "v") (-1) != 1) = true
    · rw [if_pos hver] at h; exact absurd h (by simp)
    · rw [if_neg hver] at h
      rw [if_neg hver]
      by_cases haud : (!(jAsString (jLookup p "aud") == some "oi-runtime")) = true
      · rw [if_pos haud] at h; exact absurd h (by simp)
      · rw [if_neg haud] at h
        rw [if_neg haud]
        have haud' : jAsString (jLookup p "aud") = some "oi-runtime" := by
          rcases Bool.eq_false_or_eq_true
              (jAsString (jLookup p "aud") == some "oi-runtime") with hb | hb
          · exact eq_of_beq hb
          · exact absurd (by rw [hb]; rfl) haud
        by_cases hcs : (checkAndStore seen now (jAsString (jLookup p "nonce"))).1 = true
        · have hnotcs : (!(checkAndStore seen now (jAsString (jLookup p "nonce"))).1) = false := by
            rw [hcs]; rfl
          rw [hnotcs] at h
          simp only [Bool.false_eq_true, if_false] at h
          rw [hnotcs]
          simp only [Bool.false_eq_true, if_false]
          obtain ⟨n, hn, hblank, hfind, hcache⟩ := checkAndStore_true seen now _ hcs
          cases hah : jAsString (jLookup p "act_hash") with
          | none => rw [hah] at h; exact absurd h (by simp)
          | some ah =>
            rw [hah] at h
            dsimp only at h
            by_cases heq : (ah == hash) = true
            · dsimp only
              rw [if_pos heq]
              have hah' : ah = hash := eq_of_beq heq
              subst hah'
              exact ⟨p, n, hobj, hsig, ⟨exp, hexp, hle⟩, haud', hn, hblank, hfind, hah, hcache⟩
            · rw [if_neg heq] at h
              exact absurd h (by simp)
        · have hcs' : (checkAndStore seen now (jAsString (jLookup p "nonce"))).1 = false :=
            Bool.eq_false_iff.mpr hcs
          have : (!(checkAndStore seen now (jAsString (jLookup p "nonce"))).1) = true := by
            rw [hcs']; rfl
          rw [this] at h
          simp at h

/-- C9: `verifyConsent` — (i) a missing consent token is rejected; (ii) it
succeeds only when the payload signature verifies under the consent key, the
`exp` field is present and not in the past, the audience equals the
configured `"oi-runtime"`, the nonce is a non-blank string not present in
the (TTL-pruned) nonce cache, and the `act_hash` equals the expected hash of
the action reconstructed from the current request — in particular a consent
token presented against a different action's hash fails; (iii) a successful
verification records the nonce in the cache (check and record are one
atomic step of the sequential state); and (iv) a second presentation of any
token carrying the same nonce is rejected — given that its `exp` lies within
the nonce TTL of the first use, which holds for every token this service
mints because the consent TTL (120 s) is at most the nonce TTL (300 s). -/
theorem C9_verifyConsent (sigver : JVal → Nat → Bool) :
    (∀ seen now hash, (verifyConsent sigver seen now none hash).1.isSome = true) ∧
    (∀ seen now tok hash, (verifyConsent sigver seen now (some tok) hash).1 = none →
       ∃ fields, tok.payload = .obj fields ∧
         sigver tok.payload tok.sig = true ∧
         (∃ exp, jLookup fields "exp" = some (.num exp) ∧ now ≤ exp) ∧
         jAsString (jLookup fields "aud") = some "oi-runtime" ∧
         (∃ n, jAsString (jLookup fields "nonce") = some n ∧
            n.data.all Char.isWhitespace = false ∧
            ((nonceCleanup seen now).find? (fun e => e.1 == n)).isSome = false) ∧
         jAsString (jLookup fields "act_hash") = some hash) ∧
    (∀ seen now tok hash fields n,
       tok.payload = .obj fields → jAsString (jLookup fields "nonce") = some n →
       (verifyConsent sigver seen now (some tok) hash).1 = none →
       (verifyConsent sigver seen now (some tok) hash).2 =
         nonceCleanup seen now ++ [(n, now)]) ∧
    (∀ seen now₁ now₂ tok₁ tok₂ hash₁ hash₂ fields₁ fields₂ n,
       tok₁.payload = .obj fields₁ → jAsString (jLookup fields₁ "nonce") = some n →
       (verifyConsent sigver seen now₁ (some tok₁) hash₁).1 = none →
       tok₂.payload = .obj fields₂ → jAsString (jLookup fields₂ "nonce") = some n →
       (∀ e, jLookup fields₂ "exp" = some (.num e) → e ≤ now₁ + gwNonceTtl) →
       now₁ ≤ now₂ →
       (verifyConsent sigver ((verifyConsent sigver seen now₁ (some tok₁) hash₁).2) now₂
          (some tok₂) hash₂).1.isSome = true) := by
  refine ⟨?_, ?_, ?_, ?_⟩
  · intro seen now hash
    rfl
  · intro seen now tok hash h
    obtain ⟨p, n, hobj, hsig, hexp, haud, hn, hblank, hfind, hact, -⟩ :=
      verifyConsent_ok_elim sigver seen now tok hash h
    exact ⟨p, hobj, hsig, hexp, haud, ⟨n, hn, hblank, hfind⟩, hact⟩
  · intro seen now tok hash fields n hobj hn h
    obtain ⟨p, n', hobj', -, -, -, hn', -, -, -, hcache⟩ :=
      verifyConsent_ok_elim sigver seen now tok hash h
    have hfp : fields = p := by injection hobj.symm.trans hobj'
    subst hfp
    have hnn : n' = n := by
      have hsm := hn'.symm.trans hn
      injection hsm
    subst hnn
    exact hcache
  · intro seen now₁ now₂ tok₁ tok₂ hash₁ hash₂ fields₁ fields₂ n hobj₁ hn₁ h₁ hobj₂ hn₂
      hexpB hnow
    obtain ⟨p₁, n₁', hobj₁', -, -, -, hn₁', hblank₁, -, -, hcache₁⟩ :=
      verifyConsent_ok_elim sigver seen now₁ tok₁ hash₁ h₁
    have hfp₁ : fields₁ = p₁ := by injection hobj₁.symm.trans hobj₁'
    subst hfp₁
    have hnn₁ : n = n₁' := by
      have hsm := hn₁.symm.trans hn₁'
      injection hsm
    subst hnn₁
    cases hres : (verifyConsent sigver ((verifyConsent sigver seen now₁ (some tok₁) hash₁).2)
        now₂ (some tok₂) hash₂).1 with
    | some e => rfl
    | none =>
      exfalso
      obtain ⟨p₂, n₂', hobj₂', -, hexp₂, -, hn₂', -, hfind₂, -, -⟩ :=
        verifyConsent_ok_elim sigver _ now₂ tok₂ hash₂ hres
      rcases hexp₂ with ⟨e₂, hexp₂', hle₂⟩
      have hfp₂ : fields₂ = p₂ := by injection hobj₂.symm.trans hobj₂'
      subst hfp₂
      have hnn₂ : n = n₂' := by
        have hsm := hn₂.symm.trans hn₂'
        injection hsm
      subst hnn₂
      have hbound : e₂ ≤ now₁ + gwNonceTtl := hexpB e₂ hexp₂'
      have hwin : ¬(now₂ - now₁ > gwNonceTtl) := by omega
      have hmem : (n, now₁) ∈
          nonceCleanup ((verifyConsent sigver seen now₁ (some tok₁) hash₁).2) now₂ := by
        rw [hcache₁]
        unfold nonceCleanup
        apply List.mem_filter.mpr
        refine ⟨List.mem_append_right _ (by simp), ?_⟩
        simp only [decide_eq_false hwin]
        rfl
      have hnone : (nonceCleanup ((verifyConsent sigver seen now₁ (some tok₁) hash₁).2)
          now₂).find? (fun e => e.1 == n) = none := by
        cases hf : (nonceCleanup ((verifyConsent sigver seen now₁ (some tok₁) hash₁).2)
            now₂).find? (fun e => e.1 == n)
        · rfl
        · rw [hf] at hfind₂; simp at hfind₂
      have hall := List.find?_eq_none.mp hnone _ hmem
      simp at hall

def c9Fields : List (String × JVal) :=
  [("v", JVal.num 1), ("aud", JVal.str "oi-runtime"), ("exp", JVal.num 200),
   ("nonce", JVal.str "nonce-1"), ("act_hash", JVal.str "h1")]

def c9Tok : SignedToken := { payload := JVal.obj c9Fields, sig := 0 }

def c9sigver : JVal → Nat → Bool := fun _ _ => true

theorem C9_verifyConsent_witness :
    (verifyConsent c9sigver [] 10 none "h1").1.isSome = true ∧
    (verifyConsent c9sigver [] 10 (some c9Tok) "h1").1 = none ∧
    (verifyConsent c9sigver [] 10 (some c9Tok) "h1").2 =
      nonceCleanup [] 10 ++ [("nonce-1", 10)] ∧
    (verifyConsent c9sigver ((verifyConsent c9sigver [] 10 (some c9Tok) "h1").2) 20
      (some c9Tok) "h1").1.isSome = true := by
  refine ⟨(C9_verifyConsent c9sigver).1 [] 10 "h1", rfl, ?_, ?_⟩
  · exact (C9_verifyConsent c9sigver).2.2.1 [] 10 c9Tok "h1" c9Fields "nonce-1" rfl rfl rfl
  · refine (C9_verifyConsent c9sigver).2.2.2 [] 10 20 c9Tok c9Tok "h1" "h1" c9Fields c9Fields
      "nonce-1" rfl rfl rfl rfl rfl ?_ (by decide)
    intro e he
    have h200 : jLookup c9Fields "exp" = some (JVal.num 200) := rfl
    rw [h200] at he
    injection he with h₁
    injection h₁ with h₂
    unfold gwNonceTtl
    omega

/-! ## C4: audit-chain invariants and tamper detection

`Built H l` says `l` is reachable from `NewLedger` by the seven `Append*`
operations — exactly the ledgers the kernel ever constructs.  `FieldMutation`
is an after-the-fact change to exactly one field of a receipt; for
`EventData` the change must alter the `%v` rendering, because `computeHash`
hashes the rendering and not the value (see `C4_counterexample` for a
value change that the rendering erases). -/

inductive Built (H : String → String) : Ledger → Prop where
  | new (now : Nat) : Built H (NewLedger H now)
  | cdiDecision {l : Ledger} (h : Built H l) (now : Nat)
      (decision inputHash outputHash : String) :
      Built H (l.AppendCDIDecision H now decision inputHash outputHash)
  | tokenMint {l : Ledger} (h : Built H l) (now : Nat) (tokenDigest : String)
      (scope : List String) : Built H (l.AppendTokenMint H now tokenDigest scope)
  | adapterAttempt {l : Ledger} (h : Built H l) (now : Nat) (adapterName : String)
      (accepted : Bool) (tokenDigest : String) :
      Built H (l.AppendAdapterAttempt H now adapterName accepted tokenDigest)
  | memoryWrite {l : Ledger} (h : Built H l) (now : Nat)
      (partition scope contentHash : String) :
      Built H (l.AppendMemoryWrite H now partition scope contentHash)
  | integrityStateChange {l : Ledger} (h : Built H l) (now : Nat) (newState : String) :
      Built H (l.AppendIntegrityStateChange H now newState)
  | stopEvent {l : Ledger} (h : Built H l) (now : Nat) (tokensRevoked : Nat) :
      Built H (l.AppendStopEvent H now tokensRevoked)
  | postureChange {l : Ledger} (h : Built H l) (now : Nat) (fromLevel toLevel : Nat)
      (reason : String) : Built H (l.AppendPostureChange H now fromLevel toLevel reason)

inductive FieldMutation : Receipt → Receipt → Prop where
  | seq (r : Receipt) (v : Nat) (h : v ≠ r.Sequence) :
      FieldMutation r { r with Sequence := v }
  | ts (r : Receipt) (v : Nat) (h : v ≠ r.Timestamp) :
      FieldMutation r { r with Timestamp := v }
  | etype (r : Receipt) (v : String) (h : v ≠ r.EventType) :
      FieldMutation r { r with EventType := v }
  | edata (r : Receipt) (d : List (String × GoVal))
      (h : fmtEventData d ≠ fmtEventData r.EventData) :
      FieldMutation r { r with EventData := d }
  | prevh (r : Receipt) (v : String) (h : v ≠ r.PrevHash) :
      FieldMutation r { r with PrevHash := v }
  | cur (r : Receipt) (v : String) (h : v ≠ r.CurrentHash) :
      FieldMutation r { r with CurrentHash := v }

/-- The chain invariants of the spec: every stored hash is the hash of the
receipt's own serialization, consecutive receipts are linked by
`prev_hash = previous current_hash`, and the head is the genesis receipt. -/
def LedgerInv (H : String → String) (l : Ledger) : Prop :=
  (∀ r ∈ l.receipts, r.CurrentHash = computeHash H r) ∧
  List.Chain' (fun a b => b.PrevHash = a.CurrentHash) l.receipts ∧
  (∃ g rest, l.receipts = g :: rest ∧ g.Sequence = 0 ∧ g.PrevHash = "0000000000000000")

theorem serializeReceipt_data (r : Receipt) :
    (serializeReceipt r).data =
      (fmtNat r.Sequence).data ++ ("|".data ++ ((fmtNat r.Timestamp).data ++ ("|".data ++
        (r.EventType.data ++ ("|".data ++ ((fmtEventData r.EventData).data ++ ("|".data ++
          r.PrevHash.data))))))) := by
  simp [serializeReceipt, String.data_append, List.append_assoc]

theorem mkReceipt_hash (H : String → String) (s t : Nat) (et : String)
    (d : List (String × GoVal)) (p : String) :
    (mkReceipt H s t et d p).CurrentHash = computeHash H (mkReceipt H s t et d p) := rfl

theorem append_preserves_inv (H : String → String) (now : Nat) (et : String)
    (d : List (String × GoVal)) (l : Ledger) (ih : LedgerInv H l) :
    LedgerInv H (l.append H now et d) := by
  obtain ⟨hh, hc, g, rest, hgr, hg0, hgp⟩ := ih
  have hne : l.receipts ≠ [] := by rw [hgr]; simp
  have hlast : l.receipts.getLast? = some (l.receipts.getLast hne) :=
    List.getLast?_eq_getLast _ hne
  unfold Ledger.append
  dsimp only
  rw [hlast]
  generalize hnr : mkReceipt H (l.sequence + 1) now et d
    (l.receipts.getLast hne).CurrentHash = nr
  refine ⟨?_, ?_, ?_⟩
  · intro x hx
    rcases List.mem_append.mp hx with hx | hx
    · exact hh x hx
    · have hxn : x = nr := by simpa using hx
      rw [hxn, ← hnr]
      exact mkReceipt_hash H _ _ _ _ _
  · refine List.chain'_append.mpr ⟨hc, List.chain'_singleton _, ?_⟩
    intro x hx y hy
    rw [hlast] at hx
    simp only [Option.mem_def, Option.some.injEq] at hx
    simp only [List.head?_cons, Option.mem_def, Option.some.injEq] at hy
    rw [← hy, ← hnr, ← hx]
    rfl
  · refine ⟨g, rest ++ [nr], ?_, hg0, hgp⟩
    rw [hgr, List.cons_append]

theorem built_invariant (H : String → String) {l : Ledger} (hb : Built H l) :
    LedgerInv H l := by
  induction hb with
  | new now =>
    refine ⟨?_, ?_, ?_⟩
    · intro r hr
      have : r = mkReceipt H 0 now "genesis"
          [("message", GoVal.str "audit ledger initialized")] "0000000000000000" := by
        simpa [NewLedger] using hr
      rw [this]
      exact mkReceipt_hash H _ _ _ _ _
    · exact List.chain'_singleton _
    · exact ⟨_, _, rfl, rfl, rfl⟩
  | cdiDecision h now decision inputHash outputHash ih =>
    exact append_preserves_inv H now _ _ _ ih
  | tokenMint h now tokenDigest scope ih => exact append_preserves_inv H now _ _ _ ih
  | adapterAttempt h now adapterName accepted tokenDigest ih =>
    exact append_preserves_inv H now _ _ _ ih
  | memoryWrite h now partition scope contentHash ih =>
    exact append_preserves_inv H now _ _ _ ih
  | integrityStateChange h now newState ih => exact append_preserves_inv H now _ _ _ ih
  | stopEvent h now tokensRevoked ih => exact append_preserves_inv H now _ _ _ ih
  | postureChange h now fromLevel toLevel reason ih =>
    exact append_preserves_inv H now _ _ _ ih

theorem verifyFrom_nil (H : String → String) (prev : Receipt) :
    verifyFrom H prev [] = (true, none) := rfl

theorem verifyFrom_cons (H : String → String) (prev x : Receipt) (rest : List Receipt) :
    verifyFrom H prev (x :: rest) =
      if x.CurrentHash ≠ computeHash H x then (false, some VerErr.hashMismatch)
      else if x.PrevHash ≠ prev.CurrentHash then (false, some VerErr.chainBreak)
      else verifyFrom H x rest := rfl

theorem Verify_eq (H : String → String) (l : Ledger) (x : Receipt) (xs : List Receipt)
    (h : l.receipts = x :: xs) :
    l.Verify H = if x.CurrentHash ≠ computeHash H x then (false, some VerErr.hashMismatch)
      else verifyFrom H x xs := by
  unfold Ledger.Verify
  rw [h]

theorem verifyFrom_complete (H : String → String) :
    ∀ (rest : List Receipt) (prev : Receipt),
      (∀ r ∈ rest, r.CurrentHash = computeHash H r) →
      List.Chain' (fun a b => b.PrevHash = a.CurrentHash) (prev :: rest) →
      verifyFrom H prev rest = (true, none) := by
  intro rest
  induction rest with
  | nil => intro prev _ _; rfl
  | cons x xs ih =>
    intro prev hh hc
    have hx : x.CurrentHash = computeHash H x := hh x (by simp)
    have hlink : x.PrevHash = prev.CurrentHash := (List.chain'_cons.mp hc).1
    rw [verifyFrom_cons, if_neg (not_not_intro hx), if_neg (not_not_intro hlink)]
    exact ih x (fun r hr => hh r (by simp [hr])) (List.chain'_cons.mp hc).2

theorem Verify_complete (H : String → String) {l : Ledger} (hinv : LedgerInv H l) :
    l.Verify H = (true, none) := by
  obtain ⟨hh, hc, g, rest, hgr, -, -⟩ := hinv
  rw [Verify_eq H l g rest hgr,
    if_neg (not_not_intro (hh g (by rw [hgr]; simp)))]
  refine verifyFrom_complete H rest g (fun r hr => hh r (by rw [hgr]; simp [hr])) ?_
  rw [hgr] at hc
  exact hc

theorem fieldMutation_hash_fail (H : String → String) (hinj : Function.Injective H)
    (r r' : Receipt) (hm : FieldMutation r r') (hr : r.CurrentHash = computeHash H r) :
    r'.CurrentHash ≠ computeHash H r' := by
  cases hm with
  | seq v hne =>
    intro hbad
    have hH : H (serializeReceipt r) = H (serializeReceipt { r with Sequence := v }) :=
      hr.symm.trans hbad
    have hd := congrArg String.data (hinj hH)
    rw [serializeReceipt_data, serializeReceipt_data] at hd
    dsimp only at hd
    exact hne (fmtNat_injective (string_ext (List.append_cancel_right hd))).symm
  | ts v hne =>
    intro hbad
    have hH : H (serializeReceipt r) = H (serializeReceipt { r with Timestamp := v }) :=
      hr.symm.trans hbad
    have hd := congrArg String.data (hinj hH)
    rw [serializeReceipt_data, serializeReceipt_data] at hd
    dsimp only at hd
    have h₁ := List.append_cancel_left hd
    have h₂ := List.append_cancel_left h₁
    exact hne (fmtNat_injective (string_ext (List.append_cancel_right h₂))).symm
  | etype v hne =>
    intro hbad
    have hH : H (serializeReceipt r) = H (serializeReceipt { r with EventType := v }) :=
      hr.symm.trans hbad
    have hd := congrArg String.data (hinj hH)
    rw [serializeReceipt_data, serializeReceipt_data] at hd
    dsimp only at hd
    have h₁ := List.append_cancel_left hd
    have h₂ := List.append_cancel_left h₁
    have h₃ := List.append_cancel_left h₂
    have h₄ := List.append_cancel_left h₃
    exact hne (string_ext (List.append_cancel_right h₄)).symm
  | edata d hne =>
    intro hbad
    have hH : H (serializeReceipt r) = H (serializeReceipt { r with EventData := d }) :=
      hr.symm.trans hbad
    have hd := congrArg String.data (hinj hH)
    rw [serializeReceipt_data, serializeReceipt_data] at hd
    dsimp only at hd
    have h₁ := List.append_cancel_left hd
    have h₂ := List.append_cancel_left h₁
    have h₃ := List.append_cancel_left h₂
    have h₄ := List.append_cancel_left h₃
    have h₅ := List.append_cancel_left h₄
    have h₆ := List.append_cancel_left h₅
    exact hne (string_ext (List.append_cancel_right h₆)).symm
  | prevh v hne =>
    intro hbad
    have hH : H (serializeReceipt r) = H (serializeReceipt { r with PrevHash := v }) :=
      hr.symm.trans hbad
    have hd := congrArg String.data (hinj hH)
    rw [serializeReceipt_data, serializeReceipt_data] at hd
    dsimp only at hd
    have h₁ := List.append_cancel_left hd
    have h₂ := List.append_cancel_left h₁
    have h₃ := List.append_cancel_left h₂
    have h₄ := List.append_cancel_left h₃
    have h₅ := List.append_cancel_left h₄
    have h₆ := List.append_cancel_left h₅
    have h₇ := List.append_cancel_left h₆
    have h₈ := List.append_cancel_left h₇
    exact hne (string_ext h₈).symm
  | cur v hne =>
    intro hbad
    have hv : v = r.CurrentHash := hbad.trans hr.symm
    exact hne hv

theorem verifyFrom_hashFail (H : String → String) (post : List Receipt) :
    ∀ (mid : List Receipt) (prev r' : Receipt),
      (∀ x ∈ mid, x.CurrentHash = computeHash H x) →
      List.Chain' (fun a b => b.PrevHash = a.CurrentHash) (prev :: mid) →
      r'.CurrentHash ≠ computeHash H r' →
      verifyFrom H prev (mid ++ r' :: post) = (false, some VerErr.hashMismatch) := by
  intro mid
  induction mid with
  | nil =>
    intro prev r' _ _ hbad
    rw [List.nil_append, verifyFrom_cons, if_pos hbad]
  | cons x xs ih =>
    intro prev r' hh hc hbad
    have hx : x.CurrentHash = computeHash H x := hh x (by simp)
    have hlink : x.PrevHash = prev.CurrentHash := (List.chain'_cons.mp hc).1
    rw [List.cons_append, verifyFrom_cons, if_neg (not_not_intro hx),
      if_neg (not_not_intro hlink)]
    exact ih x r' (fun y hy => hh y (by simp [hy])) (List.chain'_cons.mp hc).2 hbad

/-- C4: every ledger built from `NewLedger` by the `Append*` operations
satisfies the chain invariants — each receipt's `CurrentHash` is the hash of
`(sequence, timestamp, event_type, event_data, prev_hash)`, each receipt's
`PrevHash` is the previous receipt's `CurrentHash`, the genesis receipt has
sequence 0 and prev hash `"0000000000000000"` — and `Verify` accepts it.
Moreover, if the hash is collision-free, then mutating any single field of
any receipt makes `Verify` fail with a hash-mismatch error, **provided** an
`EventData` mutation changes the `%v` rendering that `computeHash` actually
hashes: a rendering-preserving `EventData` change is undetectable
(`C4_counterexample`), which is the correction to the claim. -/
theorem C4_ledger_chain_and_tamper (H : String → String) :
    (∀ l, Built H l → LedgerInv H l ∧ l.Verify H = (true, none)) ∧
    (Function.Injective H →
      ∀ l pre r post r', Built H l → l.receipts = pre ++ r :: post →
        FieldMutation r r' →
        Ledger.Verify H { receipts := pre ++ r' :: post, sequence := l.sequence } =
          (false, some VerErr.hashMismatch)) := by
  constructor
  · intro l hb
    exact ⟨built_invariant H hb, Verify_complete H (built_invariant H hb)⟩
  · intro hinj l pre r post r' hb hsplit hm
    obtain ⟨hh, hc, -⟩ := built_invariant H hb
    have hrhash : r.CurrentHash = computeHash H r := hh r (by rw [hsplit]; simp)
    have hbad : r'.CurrentHash ≠ computeHash H r' :=
      fieldMutation_hash_fail H hinj r r' hm hrhash
    cases pre with
    | nil =>
      rw [Verify_eq H _ r' post (by simp), if_pos hbad]
    | cons p₀ pre' =>
      have hp₀ : p₀.CurrentHash = computeHash H p₀ := hh p₀ (by rw [hsplit]; simp)
      rw [hsplit] at hc
      have hcl : List.Chain' (fun a b => b.PrevHash = a.CurrentHash) (p₀ :: pre') :=
        (List.chain'_append.mp hc).1
      rw [Verify_eq H _ p₀ (pre' ++ r' :: post) (by simp), if_neg (not_not_intro hp₀)]
      exact verifyFrom_hashFail H post pre' p₀ r'
        (fun x hx => hh x (by rw [hsplit, List.cons_append]; simp [hx])) hcl hbad

def cxLedger : Ledger := Ledger.AppendTokenMint id 0 "d" ["a", "b"] (NewLedger id 0)

def cxMutated : Ledger :=
  { receipts := cxLedger.receipts.map (fun r =>
      if r.Sequence = 1 then
        { r with EventData := [("scope", GoVal.strs ["a b"]), ("token_digest", GoVal.str "d")] }
      else r),
    sequence := cxLedger.sequence }

/-- C4 counterexample: changing the `token_mint` receipt's `EventData` from
scope `["a", "b"]` to scope `["a b"]` is a genuine mutation of a field of a
past receipt, yet `Verify` still accepts the ledger — even under the
identity hash, which is injective — because Go's `%v` renders both scopes as
`[a b]`, so the hashed serialization is unchanged. -/
theorem C4_counterexample :
    Function.Injective (id : String → String) ∧
    cxMutated.receipts.map Receipt.Sequence = cxLedger.receipts.map Receipt.Sequence ∧
    cxMutated.receipts.map Receipt.Timestamp = cxLedger.receipts.map Receipt.Timestamp ∧
    cxMutated.receipts.map Receipt.EventType = cxLedger.receipts.map Receipt.EventType ∧
    cxMutated.receipts.map Receipt.PrevHash = cxLedger.receipts.map Receipt.PrevHash ∧
    cxMutated.receipts.map Receipt.CurrentHash = cxLedger.receipts.map Receipt.CurrentHash ∧
    cxMutated.receipts.map Receipt.EventData ≠ cxLedger.receipts.map Receipt.EventData ∧
    Ledger.Verify id cxLedger = (true, none) ∧
    Ledger.Verify id cxMutated = (true, none) :=
  ⟨fun _ _ h => h, by decide⟩

def w4r0 : Receipt := mkReceipt id 0 0 "genesis"
  [("message", GoVal.str "audit ledger initialized")] "0000000000000000"

def w4r1 : Receipt := mkReceipt id 1 0 "token_mint"
  [("scope", GoVal.strs ["a", "b"]), ("token_digest", GoVal.str "d")] w4r0.CurrentHash

def w4Mutated : Ledger :=
  { receipts := [w4r0] ++ { w4r1 with Timestamp := 5 } :: [], sequence := cxLedger.sequence }

theorem C4_ledger_chain_and_tamper_witness :
    Function.Injective (id : String → String) ∧
    cxLedger.receipts = [w4r0] ++ w4r1 :: [] ∧
    (5 : Nat) ≠ w4r1.Timestamp ∧
    Ledger.Verify id cxLedger = (true, none) ∧
    Ledger.Verify id w4Mutated = (false, some VerErr.hashMismatch) := by
  refine ⟨fun _ _ h => h, by decide, by decide, ?_, ?_⟩
  · exact ((C4_ledger_chain_and_tamper id).1 cxLedger
      (Built.tokenMint (Built.new 0) 0 "d" ["a", "b"])).2
  · exact (C4_ledger_chain_and_tamper id).2 (fun _ _ h => h) cxLedger [w4r0] w4r1 []
      ({ w4r1 with Timestamp := 5 }) (Built.tokenMint (Built.new 0) 0 "d" ["a", "b"])
      (by decide) (FieldMutation.ts w4r1 5 (by decide))

end OI
